import Mathlib

/-!
# roboflex_dvs: packet decoder, frame assembler, image accumulator, raw queue

A shallow embedding of `src/src/dvs.cpp`, `src/include/roboflex_dvs/dvs.h`
and the queue of `src/examples/dvsconf.cpp`, with the properties checked
against it.

Conventions.
* `unsigned char` is `Fin 256`; `unsigned int` is a `Nat` reduced with
  `% 2^32` where the source computes it; `unsigned short` is a `Nat` reduced
  with `% 2^16`; `int` coordinates are `Int` (they stay far inside 32 bits).
* Undefined behaviour (a signed overflow of `int`, a store or a read outside an
  array) is `none`.
* The calls `got_event(pol, x, y, t)` made by `DVSEncoder::receive` are the
  events of the decoder; they are collected in call order.
* Wall-clock values (`t0`, `t1`) are not modelled.
-/

set_option autoImplicit false

namespace Dvs

/-! ## Data model -/

/-- An `unsigned char` of the raw buffer. -/
abbrev Byte := Fin 256

/-- The arguments of one call `got_event(on_off, x, y, t)`. -/
structure Event where
  on_off : Bool
  x : Int
  y : Int
  t : Nat
deriving DecidableEq, Repr

/-- What the body of the decoding loop reads and writes: the members `longTs`,
`shortTs`, `timeStamp` of `DVSEncoder` (dvs.h 130-132) and the local `posX`
of `DVSEncoder::receive` (dvs.cpp 239). -/
structure DecoderState where
  longTs : Nat
  shortTs : Nat
  timeStamp : Nat
  posX : Int
deriving DecidableEq, Repr

/-- Conversion to `unsigned int`. -/
def u32 (n : Nat) : Nat := n % 4294967296

/-- The largest `int`. -/
def INT_MAX : Nat := 2147483647

/-- Conversion of an `int` to `unsigned short`. -/
def u16 (v : Int) : Nat := (v % 65536).toNat

/-- The message `DVSEigenData` signalled by the encoder: the rows `(x, y)` of the
on and off matrices and the frame timestamp `t`. -/
structure DVSEigenData where
  on_events : List (Nat × Nat)
  off_events : List (Nat × Nat)
  t : Nat
deriving DecidableEq, Repr

/-- The members of `DVSEncoder` (dvs.h 122-132). `current_on_events` holds the
first `current_on_event_index` pairs of the array of the same name, so the
index is the length of the list; likewise for the off side. -/
structure DVSEncoder where
  prev_time_stamp : Nat
  current_on_events : List (Nat × Nat)
  current_off_events : List (Nat × Nat)
  longTs : Nat
  shortTs : Nat
  timeStamp : Nat
deriving DecidableEq, Repr

/-- The number of `(x, y)` pairs that fit in `current_on_events[640*480*2]`. -/
def event_capacity : Nat := 640 * 480

/-- The encoder after its constructor (dvs.cpp 184-190, dvs.h 130-132): the
event indices are not initialised there, `got_event` zeroes them on its first
call. -/
def DVSEncoder.new : DVSEncoder :=
  { prev_time_stamp := 0, current_on_events := [], current_off_events := [],
    longTs := 0, shortTs := 0, timeStamp := 0 }

/-! ## DVSEncoder::got_event (dvs.cpp 192-230) -/

/-- The first `if` of `got_event`: `prev_time_stamp == 0` opens a frame at `t`. -/
def DVSEncoder.open_if_idle (e : DVSEncoder) (t : Nat) : DVSEncoder :=
  if e.prev_time_stamp = 0 then
    { e with prev_time_stamp := t, current_on_events := [], current_off_events := [] }
  else e

/-- The second `if` of `got_event`: on a new timestamp the open frame is signalled
unless both indices are zero, and a new frame is opened at `t`. -/
def DVSEncoder.close_if_new (e : DVSEncoder) (t : Nat) : DVSEncoder × List DVSEigenData :=
  if t ≠ e.prev_time_stamp then
    ({ e with prev_time_stamp := t, current_on_events := [], current_off_events := [] },
     if e.current_on_events.length > 0 ∨ e.current_off_events.length > 0 then
       [{ on_events := e.current_on_events, off_events := e.current_off_events,
          t := e.prev_time_stamp }]
     else [])
  else (e, [])

/-- The last `if` of `got_event`: the pair goes to the on or off array at the
current index. A store at an index outside the array is undefined behaviour and
is `none`. -/
def DVSEncoder.store (e : DVSEncoder) (on_off : Bool) (x y : Int) : Option DVSEncoder :=
  if on_off then
    if e.current_on_events.length < event_capacity then
      some { e with current_on_events := e.current_on_events ++ [(u16 x, u16 y)] }
    else none
  else
    if e.current_off_events.length < event_capacity then
      some { e with current_off_events := e.current_off_events ++ [(u16 x, u16 y)] }
    else none

/-- One call of `DVSEncoder::got_event`: the new members and the frames signalled. -/
def DVSEncoder.got_event (e : DVSEncoder) (on_off : Bool) (x y : Int) (t : Nat) :
    Option (DVSEncoder × List DVSEigenData) :=
  let e1 := e.open_if_idle t
  let r := e1.close_if_new t
  (r.1.store on_off x y).map (fun e3 => (e3, r.2))

/-- A run of `got_event` calls, in order, with the frames signalled along the way. -/
def DVSEncoder.got_events (e : DVSEncoder) : List Event → Option (DVSEncoder × List DVSEigenData)
  | [] => some (e, [])
  | ev :: rest =>
    match e.got_event ev.on_off ev.x ev.y ev.t with
    | none => none
    | some (e1, out1) =>
      match DVSEncoder.got_events e1 rest with
      | none => none
      | some (e2, out2) => some (e2, out1 ++ out2)

/-! ## DVSEncoder::receive (dvs.cpp 232-314) -/

/-- The inner loop `for (n = 0; n < 8; n++) if ((mask >> n) & 0x01) got_event(pol,
posX, 479 - (posY0 + n), timeStamp)`. -/
def group_events (pol : Bool) (posX : Int) (posY0 : Nat) (timeStamp : Nat) (mask : Nat) :
    List Event :=
  ((List.range 8).filter (fun n => (mask >>> n) &&& 0x01 != 0)).map
    (fun n => { on_off := pol, x := posX, y := (479 : Int) - ((posY0 + n : Nat) : Int), t := timeStamp })

/-- The body of the decoding loop on one unit `buf[i..i+3]` (dvs.cpp 253-311).
The locals `grpAddr`, `posY0`, `posY` and `pol` are written before they are read in
every iteration, so only `posX` is carried in the loop state. In the `0x08` branch
the operands of `(...) * 1000` are `int` (promoted `unsigned char` values and `int`
literals), so the product is formed in `int`: above `INT_MAX` it is a signed overflow
and the result is `none`; otherwise it is stored in the `unsigned int` member. -/
def decode_packet (s : DecoderState) (b0 b1 b2 b3 : Byte) :
    Option (DecoderState × List Event) :=
  let header := b0.val &&& 0x7C
  if b0.val &&& 0x80 ≠ 0 then
    let grpAddr := (b1.val &&& 0xFC) >>> 2
    let ev3 :=
      if b3.val ≠ 0 then
        group_events (b1.val &&& 0x01 != 0) s.posX (grpAddr <<< 3) s.timeStamp b3.val
      else []
    let ev2 :=
      if b2.val ≠ 0 then
        group_events (b1.val &&& 0x02 != 0) s.posX ((grpAddr + (header >>> 2)) <<< 3)
          s.timeStamp b2.val
      else []
    some (s, ev3 ++ ev2)
  else
    if header = 0x04 then
      let shortTs := ((b1.val &&& 0x1F) <<< 5) ||| ((b2.val &&& 0xF8) >>> 3)
      let timeStamp := u32 (s.longTs + shortTs)
      let posX : Int := (319 : Int) - ((((b2.val &&& 0x03) <<< 8) ||| (b3.val &&& 0xFF) : Nat) : Int)
      some ({ s with shortTs := shortTs, timeStamp := timeStamp, posX := posX }, [])
    else if header = 0x08 then
      let product :=
        (((b1.val &&& 0x3F) <<< 16) ||| ((b2.val &&& 0xFF) <<< 8) ||| (b3.val &&& 0xFF)) * 1000
      if product ≤ INT_MAX then
        let longTs := u32 product
        some ({ s with longTs := longTs, timeStamp := u32 (longTs + s.shortTs) }, [])
      else none
    else if header = 0x40 then some (s, [])
    else if header = 0x00 then some (s, [])
    else some (s, [])

/-- The loop `for (i = ...; i < transferred; i += 4)` from index `i` on. -/
def decode_loop (buf : List Byte) (transferred : Nat) (i : Nat) (s : DecoderState) :
    Option (DecoderState × List Event) :=
  if i < transferred then
    match decode_packet s (buf.getD i 0) (buf.getD (i + 1) 0) (buf.getD (i + 2) 0)
        (buf.getD (i + 3) 0) with
    | none => none
    | some r =>
      match decode_loop buf transferred (i + 4) r.1 with
      | none => none
      | some r2 => some (r2.1, r.2 ++ r2.2)
  else some (s, [])
termination_by transferred - i

/-- The value of `transferred` after `if (transferred % 4) transferred =
(transferred / 4) * 4`. -/
def trim_length (len : Nat) : Nat :=
  if len % 4 ≠ 0 then (len / 4) * 4 else len

/-- The decoding part of `DVSEncoder::receive`: from the members on entry (the
local `posX` starts at 0) to the loop state on exit and the `got_event` calls made. -/
def DVSEncoder.decode (e : DVSEncoder) (buf : List Byte) :
    Option (DecoderState × List Event) :=
  let s0 : DecoderState :=
    { longTs := e.longTs, shortTs := e.shortTs, timeStamp := e.timeStamp, posX := 0 }
  if buf.length > 0 then decode_loop buf (trim_length buf.length) 0 s0
  else some (s0, [])

/-- One call of `DVSEncoder::receive`: the `got_event` calls made by the loop go
through the assembler in order; `got_event` touches no timestamp member and the
loop touches no assembler member. -/
def DVSEncoder.receive (e : DVSEncoder) (buf : List Byte) :
    Option (DVSEncoder × List DVSEigenData) :=
  match e.decode buf with
  | none => none
  | some r =>
    (e.got_events r.2).map (fun p =>
      ({ p.1 with longTs := r.1.longTs, shortTs := r.1.shortTs, timeStamp := r.1.timeStamp },
       p.2))

/-! ## DVSEigenToGrayScale (dvs.cpp 319-352, dvs.h 135-150) -/

/-- Conversion of an `int` to `uint8_t`. -/
def u8 (v : Int) : Nat := (v % 256).toNat

/-- The coefficients of `Eigen::Matrix<uint8_t, 320, 480, RowMajor>`, by row and
column; only rows below 320 and columns below 480 exist. -/
abbrev DVSImage := Nat → Nat → Nat

/-- The member `accumulated_image` of `DVSEigenToGrayScale`. -/
structure DVSEigenToGrayScale where
  accumulated_image : DVSImage

/-- The accumulator after its constructor: `accumulated_image.fill(128)`. -/
def DVSEigenToGrayScale.new : DVSEigenToGrayScale :=
  { accumulated_image := fun _ _ => 128 }

/-- The statement `accumulated_image(p.1, p.2) += d` on `uint8_t` coefficients:
the sum is formed in `int` and converted back. A coefficient outside the matrix
is undefined behaviour and is `none`. -/
def add_at (img : DVSImage) (d : Int) (p : Nat × Nat) : Option DVSImage :=
  if p.1 < 320 ∧ p.2 < 480 then
    some (fun i j => if i = p.1 ∧ j = p.2 then u8 ((img i j : Int) + d) else img i j)
  else none

/-- The loop `for (i = 0; i < events.rows(); i++) accumulated_image(events(i, 0),
events(i, 1)) += d`. -/
def add_all (img : DVSImage) (d : Int) : List (Nat × Nat) → Option DVSImage
  | [] => some img
  | p :: rest =>
    match add_at img d p with
    | none => none
    | some img1 => add_all img1 d rest

/-- One call of `DVSEigenToGrayScale::receive`: `+= 40` over the on events, then
`-= 40` over the off events. -/
def DVSEigenToGrayScale.receive (g : DVSEigenToGrayScale) (m : DVSEigenData) :
    Option DVSEigenToGrayScale :=
  match add_all g.accumulated_image 40 m.on_events with
  | none => none
  | some img1 =>
    match add_all img1 (-40) m.off_events with
    | none => none
    | some img2 => some { accumulated_image := img2 }

/-- One call of `DVSEigenToGrayScale::on_trigger`: the image is signalled, then
filled with 128. -/
def DVSEigenToGrayScale.on_trigger (g : DVSEigenToGrayScale) :
    DVSEigenToGrayScale × DVSImage :=
  ({ accumulated_image := fun _ _ => 128 }, g.accumulated_image)

/-! ## The raw buffer queue (dvsconf.cpp 63-70, 298-343) -/

/-- The payload of a `struct Node`: the `data` pointer (an address, 0 is `NULL`)
and `len`. -/
structure Node where
  data : Nat
  len : Int
deriving DecidableEq, Repr

/-- The chain of nodes from `front` to `rear`; the empty list is `front == NULL
&& rear == NULL`. -/
abbrev Queue := List Node

/-- `Enqueue(pkt, len)`: a new node becomes `front` and `rear` of an empty queue,
else it is linked after `rear`. -/
def Enqueue (q : Queue) (pkt : Nat) (len : Int) : Queue :=
  match q with
  | [] => [{ data := pkt, len := len }]
  | n :: rest => (n :: rest) ++ [{ data := pkt, len := len }]

/-- `Dequeue(&len)`: the queue left behind, the pointer returned and the value of
`*len`. With `front == rear` the node at `front` is read and the queue emptied;
otherwise `front = front->next` runs first and the node then at `front` is read. -/
def Dequeue (q : Queue) : Queue × Nat × Int :=
  match q with
  | [] => ([], 0, 0)
  | [n] => ([], n.data, n.len)
  | _ :: n :: rest => (n :: rest, n.data, n.len)

/-- A run of `Enqueue` calls, in order. -/
def enqueue_all (q : Queue) : List (Nat × Int) → Queue
  | [] => q
  | b :: rest => enqueue_all (Enqueue q b.1 b.2) rest

/-- The results `(pointer, len)` of `n` successive `Dequeue` calls. -/
def dequeue_n (q : Queue) : Nat → List (Nat × Int)
  | 0 => []
  | n + 1 => (Dequeue q).2 :: dequeue_n (Dequeue q).1 n

/-! ## The script parser (dvsconf.cpp 153-246)

A `char` is its code, a natural number. The argument `s` is the memory from the
current position `s + i` on: the characters of the line, its terminating 0, and
whatever the buffer holds after it. A read outside this memory, and a signed overflow
of `int`, are undefined behaviour and are `none`. -/

/-- The function `tolower` of the C locale: `A`..`Z` (65..90) go to `a`..`z`. -/
def tolower (c : Nat) : Nat :=
  if 65 ≤ c ∧ c ≤ 90 then c + 32 else c

/-- The value `htoi` assigns to `hexdigit` for the character `c`: `c - 48` for
`0`..`9` (48..57), `c - 97 + 10` for `a`..`f` (97..102), `c - 65 + 10` for `A`..`F`
(65..70); `none` is the final `else`, where `htoi` returns. -/
def hexdigit (c : Nat) : Option Nat :=
  if 48 ≤ c ∧ c ≤ 57 then some (c - 48)
  else if 97 ≤ c ∧ c ≤ 102 then some (c - 97 + 10)
  else if 65 ≤ c ∧ c ≤ 70 then some (c - 65 + 10)
  else none

/-- The loop of `htoi` with the local `n`, on the memory from `s + *i` on: the result
is the value returned and the memory from the final `s + *i` on. -/
def htoi_loop (n : Nat) : List Nat → Option (Nat × List Nat)
  | [] => none
  | c :: rest =>
    match hexdigit c with
    | none => some (n, c :: rest)
    | some d => if 16 * n + d ≤ INT_MAX then htoi_loop (16 * n + d) rest else none

/-- The function `htoi(s, &i)` (dvsconf.cpp 153-175): `n` starts at 0. -/
def htoi (s : List Nat) : Option (Nat × List Nat) :=
  htoi_loop 0 s

/-- The pointer `dst` of `parseString`: one of its three out-parameters. -/
inductive Dst where
  | slvAddr
  | adr
  | val
deriving DecidableEq, Repr

/-- The `int` cells `*slvAddr`, `*adr` and `*val`. -/
structure ParseCells where
  slvAddr : Int
  adr : Int
  val : Int
deriving DecidableEq, Repr

/-- The assignment `*dst = v`. -/
def ParseCells.write (cells : ParseCells) (dst : Dst) (v : Int) : ParseCells :=
  match dst with
  | Dst.slvAddr => { cells with slvAddr := v }
  | Dst.adr => { cells with adr := v }
  | Dst.val => { cells with val := v }

/-- The inner `switch (mode)` of `parseString` after a value was stored: the new
`mode` and `dst`. -/
def next_mode (mode : Int) (dst : Dst) : Int × Dst :=
  if mode = 10 then (11, Dst.adr)
  else if mode = 11 then (12, Dst.val)
  else if mode = 12 then (1, dst)
  else if mode = 20 then (2, dst)
  else (mode, dst)

/-- The loop `while (true)` of `parseString` on the memory from `s + i` on, with the
locals `mode` and `dst`: the value returned and the cells on return. Every iteration
moves `i` forward, so the loop ends within as many iterations as the memory has
characters; the first argument bounds the iterations. -/
def parse_loop : Nat → List Nat → Int → Dst → ParseCells → Option (Int × ParseCells)
  | 0, _, _, _, _ => none
  | _ + 1, [], _, _, _ => none
  | fuel + 1, c :: rest, mode, dst, cells =>
    if tolower c = 0 ∨ tolower c = 10 ∨ tolower c = 47 then some (mode, cells)
    else if tolower c = 32 ∨ tolower c = 9 ∨ tolower c = 58 ∨ tolower c = 61 then
      parse_loop fuel rest mode dst cells
    else if tolower c = 119 then
      match rest with
      | [] => none
      | c1 :: r1 =>
        if tolower c1 ≠ 97 then some (-1, cells)
        else
          match r1 with
          | [] => none
          | c2 :: r2 =>
            if tolower c2 ≠ 105 then some (-1, cells)
            else
              match r2 with
              | [] => none
              | c3 :: r3 =>
                if tolower c3 ≠ 116 then some (-1, cells)
                else parse_loop fuel r3 20 Dst.val cells
    else if (48 ≤ tolower c ∧ tolower c ≤ 57) ∨ (97 ≤ tolower c ∧ tolower c ≤ 102) then
      match htoi (c :: rest) with
      | none => none
      | some (n, s1) =>
        parse_loop fuel (s1.drop 1) (next_mode mode dst).1 (next_mode mode dst).2
          (cells.write dst n)
    else some (-1, cells)

/-- The function `parseString(s, slvAddr, adr, val)` (dvsconf.cpp 177-246): `i = 0`,
`mode = 10`, `dst = slvAddr`. -/
def parseString (s : List Nat) (cells : ParseCells) : Option (Int × ParseCells) :=
  parse_loop (s.length + 1) s 10 Dst.slvAddr cells

/-- The characters `0`..`9`, `a`..`f` and `A`..`F`. -/
abbrev is_hex_char (c : Nat) : Prop :=
  (48 ≤ c ∧ c ≤ 57) ∨ (97 ≤ c ∧ c ≤ 102) ∨ (65 ≤ c ∧ c ≤ 70)

/-- The separators of a script line: space, tab, `:` and `=`. -/
abbrev is_separator (c : Nat) : Prop :=
  c = 32 ∨ c = 9 ∨ c = 58 ∨ c = 61

/-- The value of one hexadecimal digit character. -/
def hex_char_value (c : Nat) : Nat :=
  if c ≤ 57 then c - 48 else if c ≤ 70 then c - 55 else c - 87

/-- The base-16 value of a token, its first character being the most significant
digit. -/
def hex_value (tok : List Nat) : Nat :=
  Nat.ofDigits 16 (tok.reverse.map hex_char_value)

/-! ## Auxiliary readings used in the proofs -/

/-- The buffer read unit by unit from its head: the loop of `DVSEncoder::receive`
as a recursion on the buffer (related to `decode_loop` by `decode_loop_eq_units`). -/
def decode_units (s : DecoderState) : List Byte → Option (DecoderState × List Event)
  | b0 :: b1 :: b2 :: b3 :: rest =>
    match decode_packet s b0 b1 b2 b3 with
    | none => none
    | some r =>
      match decode_units r.1 rest with
      | none => none
      | some r2 => some (r2.1, r.2 ++ r2.2)
  | _ => some (s, [])

/-- The loop state `DVSEncoder::receive` starts from: the timestamp members and
`posX = 0`. -/
def DVSEncoder.entry_state (e : DVSEncoder) : DecoderState :=
  { longTs := e.longTs, shortTs := e.shortTs, timeStamp := e.timeStamp, posX := 0 }

/-- Successive calls of `DVSEncoder::receive`, one per buffer, in order; the frames
signalled are left out. -/
def DVSEncoder.receive_all (e : DVSEncoder) : List (List Byte) → Option DVSEncoder
  | [] => some e
  | buf :: rest =>
    match e.receive buf with
    | none => none
    | some (e1, _) => DVSEncoder.receive_all e1 rest

/-- The timestamp relation of the decoder: `shortTs` fits in 10 bits, `longTs` is at
most `2147483 * 1000` (the largest multiple of 1000 that fits in `int`), and
`timeStamp` is their sum as a natural number. -/
def timestamps_exact (longTs shortTs timeStamp : Nat) : Prop :=
  shortTs ≤ 1023 ∧ longTs ≤ 2147483000 ∧ timeStamp = longTs + shortTs

/-- The number of set bits among bits 0 to 7 of `b`. -/
def popcount (b : Nat) : Nat :=
  ((List.range 8).map (fun n => b / 2 ^ n % 2)).sum

/-- The pairs `(x, y)`, as `unsigned short`, of the events of `seg` with polarity
`on_off`, in the order of `seg`. -/
def stored_coords (on_off : Bool) (seg : List Event) : List (Nat × Nat) :=
  (seg.filter (fun ev => ev.on_off == on_off)).map (fun ev => (u16 ev.x, u16 ev.y))

/-- The frame that holds exactly the events of `seg`, at the timestamp of its first
event. -/
def frame_of_segment (seg : List Event) : DVSEigenData :=
  { on_events := stored_coords true seg, off_events := stored_coords false seg,
    t := match seg with
      | [] => 0
      | ev :: _ => ev.t }

/-- The frame under construction: the two event lists and `prev_time_stamp`. -/
def DVSEncoder.open_frame (e : DVSEncoder) : DVSEigenData :=
  { on_events := e.current_on_events, off_events := e.current_off_events,
    t := e.prev_time_stamp }

/-- The length of the arrays `current_on_events` and `current_off_events`. -/
def event_array_length : Nat := 640 * 480 * 2

/-- The array index of the `x` written by the last `if` of `got_event`:
`2 * current_on_event_index` or `2 * current_off_event_index`; `y` goes one further. -/
def DVSEncoder.store_index (e : DVSEncoder) (on_off : Bool) : Nat :=
  if on_off then 2 * e.current_on_events.length else 2 * e.current_off_events.length

/-- The events `S` are the ones held by the frame under construction: they all have
timestamp `prev_time_stamp`, and the two lists hold their coordinates by polarity. -/
def segment_open (e : DVSEncoder) (S : List Event) : Prop :=
  (∀ ev ∈ S, ev.t = e.prev_time_stamp) ∧ e.current_on_events = stored_coords true S ∧
    e.current_off_events = stored_coords false S

/-! ## Lemmas on bytes and bit masks -/

theorem and_one_ne_zero_eq_testBit (m n : Nat) :
    ((m >>> n) &&& 0x01 != 0) = m.testBit n := by
  simp [Nat.testBit, Nat.and_comm]

theorem and_one_eq_testBit_zero (b : Nat) : (b &&& 0x01 != 0) = b.testBit 0 := by
  simp [Nat.testBit, Nat.and_comm]

theorem and_two_eq_testBit_one (b : Nat) : (b &&& 0x02 != 0) = b.testBit 1 := by
  have h := Nat.and_two_pow b 1
  simp at h
  rw [h]
  cases b.testBit 1 <;> simp

theorem byte_and_ff (b : Byte) : b.val &&& 0xFF = b.val := by
  have h := Nat.and_pow_two_sub_one_eq_mod b.val 8
  have hb := b.isLt
  simp at h
  omega

theorem group_events_eq (pol : Bool) (posX : Int) (g : Nat) (ts : Nat) (mask : Nat) :
    group_events pol posX (g <<< 3) ts mask =
      ((List.range 8).filter (fun n => mask.testBit n)).map
        (fun n => ({ on_off := pol, x := posX, y := (479 : Int) - ((g * 8 + n : Nat) : Int),
                     t := ts } : Event)) := by
  simp only [group_events, and_one_ne_zero_eq_testBit, Nat.shiftLeft_eq]

/-! ## The loop of `receive` against the unit-by-unit reading -/

theorem trim_length_eq (len : Nat) : trim_length len = 4 * (len / 4) := by
  unfold trim_length
  split <;> omega

theorem decode_units_short (s : DecoderState) (buf : List Byte) (h : buf.length < 4) :
    decode_units s buf = some (s, []) := by
  match buf, h with
  | [], _ => rfl
  | [_], _ => rfl
  | [_, _], _ => rfl
  | [_, _, _], _ => rfl
  | _ :: _ :: _ :: _ :: _, h => simp at h; omega

theorem decode_units_cons (s : DecoderState) (b0 b1 b2 b3 : Byte) (rest : List Byte) :
    decode_units s (b0 :: b1 :: b2 :: b3 :: rest) =
      (decode_packet s b0 b1 b2 b3).bind (fun r =>
        (decode_units r.1 rest).map (fun r2 => (r2.1, r.2 ++ r2.2))) := by
  rw [decode_units]
  cases h1 : decode_packet s b0 b1 b2 b3 with
  | none => rfl
  | some r =>
    cases h2 : decode_units r.1 rest with
    | none => simp [h2]
    | some r2 => simp [h2]

theorem decode_loop_stop (buf : List Byte) (transferred i : Nat) (s : DecoderState)
    (h : ¬ i < transferred) : decode_loop buf transferred i s = some (s, []) := by
  rw [decode_loop, if_neg h]

theorem decode_loop_step (buf : List Byte) (transferred i : Nat) (s : DecoderState)
    (h : i < transferred) :
    decode_loop buf transferred i s =
      (decode_packet s (buf.getD i 0) (buf.getD (i + 1) 0) (buf.getD (i + 2) 0)
          (buf.getD (i + 3) 0)).bind (fun r =>
        (decode_loop buf transferred (i + 4) r.1).map (fun r2 => (r2.1, r.2 ++ r2.2))) := by
  rw [decode_loop, if_pos h]
  cases h1 : decode_packet s (buf.getD i 0) (buf.getD (i + 1) 0) (buf.getD (i + 2) 0)
      (buf.getD (i + 3) 0) with
  | none => rfl
  | some r =>
    cases h2 : decode_loop buf transferred (i + 4) r.1 with
    | none => simp [h2]
    | some r2 => simp [h2]

theorem decode_loop_eq_units (n : Nat) :
    ∀ (pre rest : List Byte) (s : DecoderState), rest.length = n → 4 ∣ pre.length →
      decode_loop (pre ++ rest) (trim_length (pre ++ rest).length) pre.length s
        = decode_units s rest := by
  induction n using Nat.strong_induction_on with
  | _ n ih =>
    intro pre rest s hn hpre
    obtain ⟨k, hk⟩ := hpre
    by_cases hlen : rest.length < 4
    · rw [decode_units_short s rest hlen]
      apply decode_loop_stop
      rw [trim_length_eq]
      simp
      omega
    · match rest, hn, hlen with
      | b0 :: b1 :: b2 :: b3 :: rest', hn, _ =>
        have hlt : pre.length < trim_length (pre ++ b0 :: b1 :: b2 :: b3 :: rest').length := by
          rw [trim_length_eq]; simp; omega
        rw [decode_loop_step _ _ _ _ hlt, decode_units_cons]
        have h0 : (pre ++ b0 :: b1 :: b2 :: b3 :: rest').getD pre.length 0 = b0 := by
          rw [List.getD_append_right _ _ _ _ (by omega)]; simp
        have h1 : (pre ++ b0 :: b1 :: b2 :: b3 :: rest').getD (pre.length + 1) 0 = b1 := by
          rw [List.getD_append_right _ _ _ _ (by omega)]; simp
        have h2 : (pre ++ b0 :: b1 :: b2 :: b3 :: rest').getD (pre.length + 2) 0 = b2 := by
          rw [List.getD_append_right _ _ _ _ (by omega)]; simp
        have h3 : (pre ++ b0 :: b1 :: b2 :: b3 :: rest').getD (pre.length + 3) 0 = b3 := by
          rw [List.getD_append_right _ _ _ _ (by omega)]; simp
        rw [h0, h1, h2, h3]
        have hrec := fun s1 => ih rest'.length (by simp at hn; omega) (pre ++ [b0, b1, b2, b3])
          rest' s1 rfl ⟨k + 1, by simp; omega⟩
        have e1 : pre ++ [b0, b1, b2, b3] ++ rest' = pre ++ b0 :: b1 :: b2 :: b3 :: rest' := by
          simp
        have e2 : (pre ++ [b0, b1, b2, b3]).length = pre.length + 4 := by simp
        rw [e1, e2] at hrec
        simp only [hrec]
      | [], _, h => exact absurd (by simp) h
      | [_], _, h => exact absurd (by simp) h
      | [_, _], _, h => exact absurd (by simp) h
      | [_, _, _], _, h => exact absurd (by simp) h

/-- The decoding part of `receive` is the unit-by-unit reading from the entry state. -/
theorem decode_eq_units (e : DVSEncoder) (buf : List Byte) :
    e.decode buf = decode_units e.entry_state buf := by
  unfold DVSEncoder.decode
  by_cases h : buf.length > 0
  · simp only [h, if_true]
    exact decode_loop_eq_units buf.length [] buf e.entry_state rfl ⟨0, rfl⟩
  · have : buf = [] := by
      cases buf with
      | nil => rfl
      | cons a t => simp at h
    subst this
    rfl

theorem decode_units_append (n : Nat) :
    ∀ (A B : List Byte) (s : DecoderState), A.length = 4 * n →
      decode_units s (A ++ B) =
        (decode_units s A).bind (fun r =>
          (decode_units r.1 B).map (fun r2 => (r2.1, r.2 ++ r2.2))) := by
  induction n with
  | zero =>
    intro A B s hA
    have : A = [] := List.length_eq_zero.mp (by omega)
    subst this
    cases h : decode_units s B with
    | none => simp [decode_units, h]
    | some r => simp [decode_units, h]
  | succ n ih =>
    intro A B s hA
    match A, hA with
    | b0 :: b1 :: b2 :: b3 :: A', hA =>
      have hA' : A'.length = 4 * n := by simp at hA; omega
      rw [List.cons_append, List.cons_append, List.cons_append, List.cons_append,
        decode_units_cons, decode_units_cons]
      cases h1 : decode_packet s b0 b1 b2 b3 with
      | none => rfl
      | some r =>
        simp only [Option.some_bind]
        rw [ih A' B r.1 hA']
        cases h2 : decode_units r.1 A' with
        | none => rfl
        | some r2 =>
          cases h3 : decode_units r2.1 B with
          | none => simp [h3]
          | some r3 => simp [h3]
    | [], h => simp at h
    | [_], h => simp at h; omega
    | [_, _], h => simp at h; omega
    | [_, _, _], h => simp at h; omega

/-! ## The claims -/

theorem decode_packet_group (s : DecoderState) (b0 b1 b2 b3 : Byte)
    (hg : b0.val &&& 0x80 ≠ 0) :
    decode_packet s b0 b1 b2 b3 =
      some (s,
       ((List.range 8).filter (fun n => b3.val.testBit n)).map
          (fun n => ({ on_off := b1.val.testBit 0, x := s.posX,
                       y := (479 : Int) - (((((b1.val &&& 0xFC) >>> 2) * 8 + n : Nat)) : Int),
                       t := s.timeStamp } : Event)) ++
       ((List.range 8).filter (fun n => b2.val.testBit n)).map
          (fun n => ({ on_off := b1.val.testBit 1, x := s.posX,
                       y := (479 : Int) - ((((((b1.val &&& 0xFC) >>> 2) + ((b0.val &&& 0x7C) >>> 2)) * 8
                              + n : Nat)) : Int),
                       t := s.timeStamp } : Event))) := by
  unfold decode_packet
  simp only [if_pos hg, group_events_eq, and_one_eq_testBit_zero, and_two_eq_testBit_one]
  congr 3
  · by_cases h3 : b3.val = 0
    · simp [h3]
    · simp [h3]
  · by_cases h2 : b2.val = 0
    · simp [h2]
    · simp [h2]

/-- Claim C1. On a group packet (`b0 & 0x80` set) the loop body calls `got_event`
first for the set bits `n` of `b3`, ascending from 0 to 7, each with
`y = 479 - (((b1 & 0xFC) >> 2) * 8 + n)`, `x` the current `posX`, the current
`timeStamp` and polarity bit 0 of `b1`; these calls are all the calls when `b2 = 0`. -/
theorem group_packet_b3_events (s : DecoderState) (b0 b1 b2 b3 : Byte)
    (hg : b0.val &&& 0x80 ≠ 0) :
    ∃ evs, decode_packet s b0 b1 b2 b3 = some (s, evs)
      ∧ (((List.range 8).filter (fun n => b3.val.testBit n)).map
          (fun n => ({ on_off := b1.val.testBit 0, x := s.posX,
                       y := (479 : Int) - (((((b1.val &&& 0xFC) >>> 2) * 8 + n : Nat)) : Int),
                       t := s.timeStamp } : Event)))
          <+: evs
      ∧ (b2.val = 0 →
          evs = ((List.range 8).filter (fun n => b3.val.testBit n)).map
          (fun n => ({ on_off := b1.val.testBit 0, x := s.posX,
                       y := (479 : Int) - (((((b1.val &&& 0xFC) >>> 2) * 8 + n : Nat)) : Int),
                       t := s.timeStamp } : Event))) := by
  refine ⟨_, decode_packet_group s b0 b1 b2 b3 hg, ⟨_, rfl⟩, ?_⟩
  intro h2
  simp [h2]

/-- The packet `80 04 00 01` at `posX = 309`, `timeStamp = 5003`: one off event at row 471. -/
theorem group_packet_b3_events_witness :
    (0x80 : Byte).val &&& 0x80 ≠ 0 ∧ (0x00 : Byte).val = 0 ∧
    decode_packet { longTs := 5000, shortTs := 3, timeStamp := 5003, posX := 309 }
        0x80 0x04 0x00 0x01
      = some ({ longTs := 5000, shortTs := 3, timeStamp := 5003, posX := 309 },
              [{ on_off := false, x := 309, y := 471, t := 5003 }]) := by
  obtain ⟨evs, h1, _, h3⟩ := group_packet_b3_events
    { longTs := 5000, shortTs := 3, timeStamp := 5003, posX := 309 } 0x80 0x04 0x00 0x01
    (by decide)
  refine ⟨by decide, by decide, ?_⟩
  rw [h1, h3 (by decide)]
  decide

/-- The packet `80 04 00 01` makes exactly one call of `got_event`, in every loop
state: polarity off, row 471, at the current `posX` and `timeStamp`. -/
theorem group_packet_single_event (s : DecoderState) :
    decode_packet s 0x80 0x04 0x00 0x01 =
      some (s, [{ on_off := false, x := s.posX, y := 471, t := s.timeStamp }]) := by
  rw [decode_packet_group s 0x80 0x04 0x00 0x01 (by decide)]
  have h3 : (List.range 8).filter (fun n => (0x01 : Byte).val.testBit n) = [0] := by decide
  have h2 : (List.range 8).filter (fun n => (0x00 : Byte).val.testBit n) = [] := by decide
  have hp : (0x04 : Byte).val.testBit 0 = false := by decide
  have hy : (479 : Int) - (((((0x04 : Byte).val &&& 0xFC) >>> 2) * 8 + 0 : Nat) : Int) = 471 := by
    decide
  rw [h3, h2, hp]
  simp only [List.map, List.append_nil, hy]

theorem decode_packet_column (s : DecoderState) (b0 b1 b2 b3 : Byte)
    (hn : b0.val &&& 0x80 = 0) (hh : b0.val &&& 0x7C = 0x04) :
    decode_packet s b0 b1 b2 b3 =
      some ({ s with
          shortTs := ((b1.val &&& 0x1F) <<< 5) ||| ((b2.val &&& 0xF8) >>> 3),
          timeStamp := u32 (s.longTs + (((b1.val &&& 0x1F) <<< 5) ||| ((b2.val &&& 0xF8) >>> 3))),
          posX := (319 : Int) - ((((b2.val &&& 0x03) <<< 8) ||| b3.val : Nat) : Int) }, []) := by
  unfold decode_packet
  simp [hn, hh, byte_and_ff]

/-- The `0x08` branch when the `int` product fits. -/
theorem decode_packet_reference (s : DecoderState) (b0 b1 b2 b3 : Byte)
    (hn : b0.val &&& 0x80 = 0) (hh : b0.val &&& 0x7C = 0x08)
    (hfit : (((b1.val &&& 0x3F) <<< 16) ||| (b2.val <<< 8) ||| b3.val) * 1000 ≤ INT_MAX) :
    decode_packet s b0 b1 b2 b3 =
      some ({ s with
          longTs := (((b1.val &&& 0x3F) <<< 16) ||| (b2.val <<< 8) ||| b3.val) * 1000,
          timeStamp := u32 ((((b1.val &&& 0x3F) <<< 16) ||| (b2.val <<< 8) ||| b3.val) * 1000
            + s.shortTs) }, []) := by
  have hu : u32 ((((b1.val &&& 0x3F) <<< 16) ||| (b2.val <<< 8) ||| b3.val) * 1000)
      = (((b1.val &&& 0x3F) <<< 16) ||| (b2.val <<< 8) ||| b3.val) * 1000 := by
    simp only [u32, INT_MAX] at hfit ⊢
    omega
  unfold decode_packet
  simp [hn, hh, byte_and_ff, hfit, hu]

/-- The `0x08` branch when the `int` product does not fit: a signed overflow. -/
theorem decode_packet_reference_overflow (s : DecoderState) (b0 b1 b2 b3 : Byte)
    (hn : b0.val &&& 0x80 = 0) (hh : b0.val &&& 0x7C = 0x08)
    (hover : INT_MAX < (((b1.val &&& 0x3F) <<< 16) ||| (b2.val <<< 8) ||| b3.val) * 1000) :
    decode_packet s b0 b1 b2 b3 = none := by
  have hnot : ¬ (((b1.val &&& 0x3F) <<< 16) ||| (b2.val <<< 8) ||| b3.val) * 1000 ≤ INT_MAX :=
    Nat.not_le.mpr hover
  unfold decode_packet
  simp [hn, hh, byte_and_ff, hnot]

theorem sub_timestamp_le (b1 b2 : Byte) :
    ((b1.val &&& 0x1F) <<< 5) ||| ((b2.val &&& 0xF8) >>> 3) ≤ 1023 := by
  have h1 : (b1.val &&& 0x1F) <<< 5 < 2 ^ 10 := by
    have : b1.val &&& 0x1F ≤ 0x1F := Nat.and_le_right
    rw [Nat.shiftLeft_eq]; omega
  have h2 : (b2.val &&& 0xF8) >>> 3 < 2 ^ 10 := by
    have : b2.val &&& 0xF8 ≤ 0xF8 := Nat.and_le_right
    rw [Nat.shiftRight_eq_div_pow]; omega
  have := Nat.or_lt_two_pow h1 h2
  omega

theorem reference_value_le (b1 b2 b3 : Byte) :
    ((b1.val &&& 0x3F) <<< 16) ||| (b2.val <<< 8) ||| b3.val ≤ 4194303 := by
  have h1 : (b1.val &&& 0x3F) <<< 16 < 2 ^ 22 := by
    have : b1.val &&& 0x3F ≤ 0x3F := Nat.and_le_right
    rw [Nat.shiftLeft_eq]; omega
  have h2 : b2.val <<< 8 < 2 ^ 22 := by
    have := b2.isLt
    rw [Nat.shiftLeft_eq]; omega
  have h3 : b3.val < 2 ^ 22 := by
    have := b3.isLt
    omega
  have := Nat.or_lt_two_pow (Nat.or_lt_two_pow h1 h2) h3
  omega

/-- Claim C2. On a normal packet with header `0x04` the loop body sets
`shortTs = ((b1 & 0x1F) << 5) | ((b2 & 0xF8) >> 3)`, then `timeStamp = longTs + shortTs`
with the new `shortTs` (an `unsigned int` sum, which is the exact sum whenever
`longTs <= 4194303000`, which holds of every value a reference packet sets) and
`posX = 319 - (((b2 & 0x03) << 8) | b3)`; it calls `got_event` never and leaves
`longTs` as it was. -/
theorem column_address_packet (s : DecoderState) (b0 b1 b2 b3 : Byte)
    (hn : b0.val &&& 0x80 = 0) (hh : b0.val &&& 0x7C = 0x04) :
    ∃ s1, decode_packet s b0 b1 b2 b3 = some (s1, [])
      ∧ s1.shortTs = ((b1.val &&& 0x1F) <<< 5) ||| ((b2.val &&& 0xF8) >>> 3)
      ∧ s1.timeStamp = (s.longTs + s1.shortTs) % 2 ^ 32
      ∧ (s.longTs ≤ 4194303000 → s1.timeStamp = s.longTs + s1.shortTs)
      ∧ s1.posX = (319 : Int) - ((((b2.val &&& 0x03) <<< 8) ||| b3.val : Nat) : Int)
      ∧ s1.longTs = s.longTs := by
  refine ⟨_, decode_packet_column s b0 b1 b2 b3 hn hh, rfl, rfl, ?_, rfl, rfl⟩
  intro hl
  have := sub_timestamp_le b1 b2
  simp only [u32]
  omega

/-- On a normal packet with header `0x08` whose reference value times 1000 fits in
`int` (reference values up to 2147483), the loop body sets
`longTs = (((b1 & 0x3F) << 16) | (b2 << 8) | b3) * 1000` and
`timeStamp = longTs + shortTs` with the old `shortTs` (an `unsigned int` sum, which is
the exact sum whenever `shortTs <= 1023`); it calls `got_event` never and leaves
`shortTs` and `posX` as they were. -/
theorem reference_timestamp_packet (s : DecoderState) (b0 b1 b2 b3 : Byte)
    (hn : b0.val &&& 0x80 = 0) (hh : b0.val &&& 0x7C = 0x08)
    (hfit : (((b1.val &&& 0x3F) <<< 16) ||| (b2.val <<< 8) ||| b3.val) * 1000 ≤ INT_MAX) :
    ∃ s1, decode_packet s b0 b1 b2 b3 = some (s1, [])
      ∧ s1.longTs = (((b1.val &&& 0x3F) <<< 16) ||| (b2.val <<< 8) ||| b3.val) * 1000
      ∧ s1.timeStamp = (s1.longTs + s.shortTs) % 2 ^ 32
      ∧ (s.shortTs ≤ 1023 → s1.timeStamp = s1.longTs + s.shortTs)
      ∧ s1.shortTs = s.shortTs
      ∧ s1.posX = s.posX := by
  refine ⟨_, decode_packet_reference s b0 b1 b2 b3 hn hh hfit, rfl, rfl, ?_, rfl, rfl⟩
  intro hs
  simp only [u32, INT_MAX] at hfit ⊢
  omega

/-- Claim C3, evaluated. The packet `08 20 C4 9C` carries the reference value 2147484.
The product `2147484 * 1000 = 2147484000` is formed in `int` and exceeds `INT_MAX`
(2147483647), a signed overflow, so the loop body has no defined result; the packet
`08 20 C4 9B` (reference value 2147483) is the last one with a defined result. -/
theorem reference_product_overflow :
    (((0x20 : Byte).val &&& 0x3F) <<< 16) ||| ((0xC4 : Byte).val <<< 8) ||| (0x9C : Byte).val
      = 2147484
    ∧ INT_MAX < 2147484 * 1000
    ∧ decode_packet { longTs := 0, shortTs := 3, timeStamp := 3, posX := 309 }
        0x08 0x20 0xC4 0x9C = none
    ∧ decode_packet { longTs := 0, shortTs := 3, timeStamp := 3, posX := 309 }
        0x08 0x20 0xC4 0x9B
      = some ({ longTs := 2147483000, shortTs := 3, timeStamp := 2147483003, posX := 309 },
              []) := by
  decide

/-- The packet `04 00 18 0A` at `longTs = 5000`: sub-timestamp 3, timestamp 5003, column 309. -/
theorem column_address_packet_witness :
    (0x04 : Byte).val &&& 0x80 = 0 ∧ (0x04 : Byte).val &&& 0x7C = 0x04 ∧
    (5000 : Nat) ≤ 4194303000 ∧
    ∃ s1, decode_packet { longTs := 5000, shortTs := 0, timeStamp := 5000, posX := 0 }
        0x04 0x00 0x18 0x0A = some (s1, []) ∧
      s1.shortTs = 3 ∧ s1.timeStamp = 5003 ∧ s1.posX = 309 := by
  obtain ⟨s1, h0, h1, _, h3, h4, _⟩ := column_address_packet
    { longTs := 5000, shortTs := 0, timeStamp := 5000, posX := 0 }
    0x04 0x00 0x18 0x0A (by decide) (by decide)
  have h5 := h3 (by decide)
  rw [h1] at h5
  exact ⟨by decide, by decide, by decide, s1, h0, h1.trans (by decide), h5.trans (by decide),
    h4.trans (by decide)⟩

/-- The packet `08 00 00 05` at `shortTs = 3`: `longTs = 5000`, timestamp 5003. -/
theorem reference_timestamp_packet_witness :
    (0x08 : Byte).val &&& 0x80 = 0 ∧ (0x08 : Byte).val &&& 0x7C = 0x08 ∧
    (3 : Nat) ≤ 1023 ∧
    ∃ s1, decode_packet { longTs := 0, shortTs := 3, timeStamp := 3, posX := 309 }
        0x08 0x00 0x00 0x05 = some (s1, []) ∧
      s1.longTs = 5000 ∧ s1.timeStamp = 5003 := by
  obtain ⟨s1, h0, h1, _, h3, _⟩ := reference_timestamp_packet
    { longTs := 0, shortTs := 3, timeStamp := 3, posX := 309 }
    0x08 0x00 0x00 0x05 (by decide) (by decide) (by decide)
  have h5 := h3 (by decide)
  rw [h1] at h5
  exact ⟨by decide, by decide, by decide, s1, h0, h1.trans (by decide), h5.trans (by decide)⟩

theorem receive_of_no_events (e : DVSEncoder) (buf : List Byte) (s1 : DecoderState)
    (h : e.decode buf = some (s1, [])) :
    e.receive buf =
      some ({ e with longTs := s1.longTs, shortTs := s1.shortTs, timeStamp := s1.timeStamp },
            []) := by
  simp [DVSEncoder.receive, h, DVSEncoder.got_events]

theorem receive_of_no_result (e : DVSEncoder) (buf : List Byte) (h : e.decode buf = none) :
    e.receive buf = none := by
  simp [DVSEncoder.receive, h]

theorem decode_units_one (s : DecoderState) (b0 b1 b2 b3 : Byte) :
    decode_units s [b0, b1, b2, b3] = decode_packet s b0 b1 b2 b3 := by
  rw [decode_units_cons]
  cases h : decode_packet s b0 b1 b2 b3 with
  | none => rfl
  | some r => simp [decode_units]

theorem decode_units_two (s : DecoderState) (b0 b1 b2 b3 c0 c1 c2 c3 : Byte) :
    decode_units s [b0, b1, b2, b3, c0, c1, c2, c3] =
      (decode_packet s b0 b1 b2 b3).bind (fun r =>
        (decode_packet r.1 c0 c1 c2 c3).map (fun r2 => (r2.1, r.2 ++ r2.2))) := by
  rw [decode_units_cons]
  cases h : decode_packet s b0 b1 b2 b3 with
  | none => rfl
  | some r => simp only [Option.some_bind, decode_units_one]

/-- From any encoder state, a reference-timestamp packet carrying a value
`R <= 2147483` (so that `R * 1000` fits in `int`) followed by a column-address packet
carrying the 10-bit value `S`, in one buffer or in two successive buffers, leaves
`longTs = 1000 * R`, `shortTs = S` and `timeStamp = 1000 * R + S = longTs + shortTs`
as natural numbers, and `receive` returns without signalling a frame. -/
theorem reference_then_column_timestamp (e : DVSEncoder) (R S : Nat)
    (hR : R ≤ 2147483) (hS : S < 2 ^ 10) (r0 r1 r2 r3 c0 c1 c2 c3 : Byte)
    (hr : r0.val &&& 0x80 = 0) (hrh : r0.val &&& 0x7C = 0x08)
    (hRv : ((r1.val &&& 0x3F) <<< 16) ||| (r2.val <<< 8) ||| r3.val = R)
    (hc : c0.val &&& 0x80 = 0) (hch : c0.val &&& 0x7C = 0x04)
    (hSv : ((c1.val &&& 0x1F) <<< 5) ||| ((c2.val &&& 0xF8) >>> 3) = S) :
    (∃ e1, e.receive [r0, r1, r2, r3, c0, c1, c2, c3] = some (e1, []) ∧
        e1.longTs = 1000 * R ∧ e1.shortTs = S ∧ e1.timeStamp = 1000 * R + S ∧
        e1.timeStamp = e1.longTs + e1.shortTs)
    ∧ (∃ e1 e2, e.receive [r0, r1, r2, r3] = some (e1, []) ∧
        e1.receive [c0, c1, c2, c3] = some (e2, []) ∧
        e2.longTs = 1000 * R ∧ e2.shortTs = S ∧ e2.timeStamp = 1000 * R + S ∧
        e2.timeStamp = e2.longTs + e2.shortTs) := by
  have hu2 : u32 (1000 * R + S) = 1000 * R + S := by simp only [u32]; omega
  have hfit : (((r1.val &&& 0x3F) <<< 16) ||| (r2.val <<< 8) ||| r3.val) * 1000 ≤ INT_MAX := by
    rw [hRv]
    simp only [INT_MAX]
    omega
  have hmul : R * 1000 = 1000 * R := Nat.mul_comm _ _
  constructor
  · have hd : e.decode [r0, r1, r2, r3, c0, c1, c2, c3] =
        some ({ longTs := 1000 * R, shortTs := S, timeStamp := 1000 * R + S,
                posX := (319 : Int) - ((((c2.val &&& 0x03) <<< 8) ||| c3.val : Nat) : Int) },
              []) := by
      rw [decode_eq_units, decode_units_two, decode_packet_reference _ _ _ _ _ hr hrh hfit]
      simp only [Option.some_bind]
      rw [decode_packet_column _ _ _ _ _ hc hch]
      simp [hRv, hSv, hmul, hu2, DVSEncoder.entry_state]
    exact ⟨_, receive_of_no_events e _ _ hd, rfl, rfl, rfl, rfl⟩
  · have hd1 : e.decode [r0, r1, r2, r3] =
        some ({ longTs := 1000 * R, shortTs := e.shortTs,
                timeStamp := u32 (1000 * R + e.shortTs), posX := 0 }, []) := by
      rw [decode_eq_units, decode_units_one, decode_packet_reference _ _ _ _ _ hr hrh hfit]
      simp [hRv, hmul, DVSEncoder.entry_state]
    have hd2 : ∀ e1 : DVSEncoder, e1.longTs = 1000 * R → e1.decode [c0, c1, c2, c3] =
        some ({ longTs := 1000 * R, shortTs := S, timeStamp := 1000 * R + S,
                posX := (319 : Int) - ((((c2.val &&& 0x03) <<< 8) ||| c3.val : Nat) : Int) },
              []) := by
      intro e1 h1
      rw [decode_eq_units, decode_units_one, decode_packet_column _ _ _ _ _ hc hch]
      simp [hSv, hu2, h1, DVSEncoder.entry_state]
    exact ⟨_, _, receive_of_no_events e _ _ hd1, receive_of_no_events _ _ _ (hd2 _ rfl),
      rfl, rfl, rfl, rfl⟩

/-- Reference value 5 then sub-timestamp 3 on a fresh encoder: timestamp 5003. -/
theorem reference_then_column_timestamp_witness :
    (5 : Nat) ≤ 2147483 ∧ (3 : Nat) < 2 ^ 10 ∧
    (0x08 : Byte).val &&& 0x80 = 0 ∧ (0x08 : Byte).val &&& 0x7C = 0x08 ∧
    (((0x00 : Byte).val &&& 0x3F) <<< 16) ||| ((0x00 : Byte).val <<< 8) ||| (0x05 : Byte).val = 5 ∧
    (0x04 : Byte).val &&& 0x80 = 0 ∧ (0x04 : Byte).val &&& 0x7C = 0x04 ∧
    (((0x00 : Byte).val &&& 0x1F) <<< 5) ||| (((0x18 : Byte).val &&& 0xF8) >>> 3) = 3 ∧
    (∃ e1, DVSEncoder.new.receive [0x08, 0x00, 0x00, 0x05, 0x04, 0x00, 0x18, 0x0A]
        = some (e1, []) ∧ e1.longTs = 5000 ∧ e1.shortTs = 3 ∧ e1.timeStamp = 5003) := by
  have h := (reference_then_column_timestamp DVSEncoder.new 5 3 (by decide) (by decide)
    0x08 0x00 0x00 0x05 0x04 0x00 0x18 0x0A (by decide) (by decide) (by decide) (by decide)
    (by decide) (by decide)).1
  obtain ⟨e1, h1, h2, h3, h4, _⟩ := h
  exact ⟨by decide, by decide, by decide, by decide, by decide, by decide, by decide, by decide,
    e1, h1, h2, h3, h4⟩

/-- Every 22-bit reference value is carried by some bytes `b1 b2 b3`. -/
theorem reference_value_surjective (R : Nat) (hR : R < 2 ^ 22) :
    ∃ b1 b2 b3 : Byte, ((b1.val &&& 0x3F) <<< 16) ||| (b2.val <<< 8) ||| b3.val = R := by
  refine ⟨⟨R / 65536, by omega⟩, ⟨R / 256 % 256, by omega⟩, ⟨R % 256, by omega⟩, ?_⟩
  have h1 : (R / 65536) &&& 0x3F = R / 65536 := by
    have h := Nat.and_pow_two_sub_one_eq_mod (R / 65536) 6
    simp at h
    omega
  simp only [h1, Nat.shiftLeft_eq]
  have a1 : R / 65536 * 2 ^ 16 ||| R / 256 % 256 * 2 ^ 8
      = 2 ^ 8 * (R / 65536 * 2 ^ 8 + R / 256 % 256) := by
    have h := Nat.mul_add_lt_is_or (i := 16) (b := R / 256 % 256 * 2 ^ 8) (by omega) (R / 65536)
    rw [Nat.mul_comm (R / 65536) (2 ^ 16), ← h]
    omega
  rw [a1, ← Nat.mul_add_lt_is_or (by omega)]
  omega

/-- Every 10-bit sub-timestamp is carried by some bytes `b1 b2`. -/
theorem sub_timestamp_surjective (S : Nat) (hS : S < 2 ^ 10) :
    ∃ b1 b2 : Byte, ((b1.val &&& 0x1F) <<< 5) ||| ((b2.val &&& 0xF8) >>> 3) = S := by
  refine ⟨⟨S / 32, by omega⟩, ⟨S % 32 * 8, by omega⟩, ?_⟩
  have h1 : (S / 32) &&& 0x1F = S / 32 := by
    have h := Nat.and_pow_two_sub_one_eq_mod (S / 32) 5
    simp at h
    omega
  have h2 : (S % 32 * 8) &&& 0xF8 = S % 32 * 8 := by
    have h3 : ∀ k : Fin 32, (k.val * 8) &&& 0xF8 = k.val * 8 := by decide
    exact h3 ⟨S % 32, by omega⟩
  simp only [h1, h2, Nat.shiftLeft_eq, Nat.shiftRight_eq_div_pow]
  have h := Nat.mul_add_lt_is_or (i := 5) (b := S % 32 * 8 / 2 ^ 3) (by omega) (S / 32)
  rw [Nat.mul_comm (S / 32) (2 ^ 5), ← h]
  omega

set_option maxRecDepth 100000 in
theorem nonzero_byte_has_set_bit :
    ∀ b : Byte, b.val ≠ 0 → (List.range 8).filter (fun n => b.val.testBit n) ≠ [] := by
  decide

/-- Claim C5. On a group packet with `b2 != 0` the calls of `got_event` are those
for the set bits of `b3` followed by one call for every set bit `n` of `b2`,
ascending, with `y = 479 - ((((b1 & 0xFC) >> 2) + ((b0 & 0x7C) >> 2)) * 8 + n)`,
`x` the current `posX`, the current `timeStamp` and polarity bit 1 of `b1`; there is
at least one such call. -/
theorem group_packet_b2_events (s : DecoderState) (b0 b1 b2 b3 : Byte)
    (hg : b0.val &&& 0x80 ≠ 0) (h2 : b2.val ≠ 0) :
    decode_packet s b0 b1 b2 b3 = some (s,
       ((List.range 8).filter (fun n => b3.val.testBit n)).map
          (fun n => ({ on_off := b1.val.testBit 0, x := s.posX,
                       y := (479 : Int) - (((((b1.val &&& 0xFC) >>> 2) * 8 + n : Nat)) : Int),
                       t := s.timeStamp } : Event)) ++
       ((List.range 8).filter (fun n => b2.val.testBit n)).map
          (fun n => ({ on_off := b1.val.testBit 1, x := s.posX,
                       y := (479 : Int) - ((((((b1.val &&& 0xFC) >>> 2) + ((b0.val &&& 0x7C) >>> 2)) * 8
                              + n : Nat)) : Int),
                       t := s.timeStamp } : Event)))
    ∧ (List.range 8).filter (fun n => b2.val.testBit n) ≠ [] :=
  ⟨decode_packet_group s b0 b1 b2 b3 hg, nonzero_byte_has_set_bit b2 h2⟩

/-- The packet `84 06 82 01`: one off event from `b3`, then two on events from `b2`. -/
theorem group_packet_b2_events_witness :
    (0x84 : Byte).val &&& 0x80 ≠ 0 ∧ (0x82 : Byte).val ≠ 0 ∧
    decode_packet { longTs := 5000, shortTs := 3, timeStamp := 5003, posX := 309 }
        0x84 0x06 0x82 0x01
      = some ({ longTs := 5000, shortTs := 3, timeStamp := 5003, posX := 309 },
         [{ on_off := false, x := 309, y := 471, t := 5003 },
          { on_off := true, x := 309, y := 462, t := 5003 },
          { on_off := true, x := 309, y := 456, t := 5003 }]) :=
  ⟨by decide, by decide,
   (group_packet_b2_events { longTs := 5000, shortTs := 3, timeStamp := 5003, posX := 309 }
      0x84 0x06 0x82 0x01 (by decide) (by decide)).1.trans (by decide)⟩

theorem receive_eq_units (e : DVSEncoder) (buf : List Byte) :
    e.receive buf =
      (decode_units e.entry_state buf).bind (fun r =>
        (e.got_events r.2).map (fun p =>
          ({ p.1 with longTs := r.1.longTs, shortTs := r.1.shortTs,
                      timeStamp := r.1.timeStamp }, p.2))) := by
  unfold DVSEncoder.receive
  rw [decode_eq_units]
  cases decode_units e.entry_state buf <;> rfl

/-- Claim C4, evaluated. A fresh encoder receives the reference-timestamp packet
`08 20 C4 9C` (the 22-bit value `R = 2147484`) followed by the column-address packet
`04 00 18 0A` (`S = 3`), in one buffer or with the reference packet in a buffer of its
own. `R * 1000` overflows `int`, so `receive` has no defined result and no state with
`longTs = 1000 * R` is reached; with `08 20 C4 9B` (`R = 2147483`) the two packets leave
`longTs = 2147483000`, `shortTs = 3`, `timeStamp = 2147483003`. -/
theorem reference_overflow_then_column :
    (2147484 : Nat) < 2 ^ 22
    ∧ DVSEncoder.new.receive [0x08, 0x20, 0xC4, 0x9C, 0x04, 0x00, 0x18, 0x0A] = none
    ∧ DVSEncoder.new.receive [0x08, 0x20, 0xC4, 0x9C] = none
    ∧ DVSEncoder.new.receive [0x08, 0x20, 0xC4, 0x9B, 0x04, 0x00, 0x18, 0x0A] =
        some ({ DVSEncoder.new with
                  longTs := 2147483000, shortTs := 3, timeStamp := 2147483003 }, []) := by
  refine ⟨by decide, ?_, ?_, ?_⟩
  · rw [receive_eq_units]; decide
  · rw [receive_eq_units]; decide
  · rw [receive_eq_units]; decide

/-- Claim C6, evaluated. A fresh encoder receives the buffer
`08 00 00 05 04 00 18 0A` (reference value 5, then column 10 with sub-timestamp 3)
and then the buffer `80 04 00 01` (a group packet). The timestamp members are kept
between the two calls, the local `posX` is not: the second call reports the event at
`x = 0`, where one call on the concatenated buffer reports it at `x = 309`. -/
theorem posX_reset_at_each_buffer :
    DVSEncoder.new.receive [0x08, 0x00, 0x00, 0x05, 0x04, 0x00, 0x18, 0x0A] =
      some ({ DVSEncoder.new with longTs := 5000, shortTs := 3, timeStamp := 5003 }, [])
    ∧ ({ DVSEncoder.new with longTs := 5000, shortTs := 3, timeStamp := 5003 }
          : DVSEncoder).decode [0x80, 0x04, 0x00, 0x01]
        = some ({ longTs := 5000, shortTs := 3, timeStamp := 5003, posX := 0 },
           [{ on_off := false, x := 0, y := 471, t := 5003 }])
    ∧ DVSEncoder.new.decode
          ([0x08, 0x00, 0x00, 0x05, 0x04, 0x00, 0x18, 0x0A] ++ [0x80, 0x04, 0x00, 0x01])
        = some ({ longTs := 5000, shortTs := 3, timeStamp := 5003, posX := 309 },
           [{ on_off := false, x := 309, y := 471, t := 5003 }])
    ∧ ({ DVSEncoder.new with longTs := 5000, shortTs := 3, timeStamp := 5003 }
          : DVSEncoder).receive [0x80, 0x04, 0x00, 0x01]
        = some ({ prev_time_stamp := 5003, current_on_events := [],
                  current_off_events := [(0, 471)],
                  longTs := 5000, shortTs := 3, timeStamp := 5003 }, [])
    ∧ DVSEncoder.new.receive
          ([0x08, 0x00, 0x00, 0x05, 0x04, 0x00, 0x18, 0x0A] ++ [0x80, 0x04, 0x00, 0x01])
        = some ({ prev_time_stamp := 5003, current_on_events := [],
                  current_off_events := [(309, 471)],
                  longTs := 5000, shortTs := 3, timeStamp := 5003 }, []) := by
  refine ⟨?_, ?_, ?_, ?_, ?_⟩
  · rw [receive_eq_units]; decide
  · rw [decode_eq_units]; decide
  · rw [decode_eq_units]; decide
  · rw [receive_eq_units]; decide
  · rw [receive_eq_units]; decide

theorem add_at_in_range (img : DVSImage) (d : Int) (x y : Nat) (hx : x < 320) (hy : y < 480) :
    add_at img d (x, y) =
      some (fun i j => if i = x ∧ j = y then u8 ((img i j : Int) + d) else img i j) := by
  simp [add_at, hx, hy]

/-- With two or more buffers queued, `Dequeue` returns the second one and the first
is never returned. -/
theorem dequeue_three (a b c : Nat × Int) :
    dequeue_n (enqueue_all [] [a, b, c]) 3 = [b, c, c] := by
  simp [enqueue_all, Enqueue, dequeue_n, Dequeue]

/-- Claim C8, evaluated. After `Enqueue` of the buffers at 0x1000, 0x2000 and 0x3000
(1024 bytes each) on the empty queue, three calls of `Dequeue` return 0x2000, 0x3000
and 0x3000: with more than one node queued, `front = front->next` runs before `data`
and `len` are read, so the buffer at 0x1000 is never returned. -/
theorem dequeue_returns_second_buffer :
    enqueue_all [] [(0x1000, 1024), (0x2000, 1024), (0x3000, 1024)]
        = [{ data := 0x1000, len := 1024 }, { data := 0x2000, len := 1024 },
           { data := 0x3000, len := 1024 }]
    ∧ dequeue_n (enqueue_all [] [(0x1000, 1024), (0x2000, 1024), (0x3000, 1024)]) 3
        = [(0x2000, 1024), (0x3000, 1024), (0x3000, 1024)]
    ∧ dequeue_n (enqueue_all [] [(0x1000, 1024), (0x2000, 1024), (0x3000, 1024)]) 3
        ≠ [(0x1000, 1024), (0x2000, 1024), (0x3000, 1024)] := by
  decide

/-- Claim C9 fails as stated when `T` or `T′` is 0, because `prev_time_stamp == 0` is
read as no frame being open. A fresh encoder given two events at timestamp 0 and one
at timestamp 1 signals no frame: each of the three calls opens a frame afresh. Given
two events at timestamp 5 and one at timestamp 0 it signals the frame at 5 and stores
the third event with `prev_time_stamp = 0`, so no frame is open: a fourth event, at
timestamp 7, opens a frame afresh and the third event is in no frame, signalled or
open. -/
theorem frame_boundary_fails_at_zero :
    DVSEncoder.new.got_events
        [{ on_off := true, x := 1, y := 1, t := 0 }, { on_off := true, x := 2, y := 2, t := 0 },
         { on_off := true, x := 3, y := 3, t := 1 }]
      = some ({ DVSEncoder.new with prev_time_stamp := 1, current_on_events := [(3, 3)] }, [])
    ∧ DVSEncoder.new.got_events
        [{ on_off := true, x := 1, y := 1, t := 5 }, { on_off := true, x := 2, y := 2, t := 5 },
         { on_off := true, x := 3, y := 3, t := 0 }]
      = some ({ DVSEncoder.new with prev_time_stamp := 0, current_on_events := [(3, 3)] },
              [{ on_events := [(1, 1), (2, 2)], off_events := [], t := 5 }])
    ∧ DVSEncoder.new.got_events
        [{ on_off := true, x := 1, y := 1, t := 5 }, { on_off := true, x := 2, y := 2, t := 5 },
         { on_off := true, x := 3, y := 3, t := 0 }, { on_off := true, x := 4, y := 4, t := 7 }]
      = some ({ DVSEncoder.new with prev_time_stamp := 7, current_on_events := [(4, 4)] },
              [{ on_events := [(1, 1), (2, 2)], off_events := [], t := 5 }]) := by
  decide

/-- Claim C9, amended. From an encoder with `prev_time_stamp = 0`, two events at a
timestamp `T` other than 0 followed by one event at a timestamp `T′` other than `T` and
other than 0 signal exactly one frame; it has timestamp `T` and holds the first two
events (coordinates as `unsigned short`, in the on or off list by polarity, in arrival
order), and a frame is left open (`prev_time_stamp = T′`, which is not 0) holding the
third event. -/
theorem frame_boundary (e : DVSEncoder) (h0 : e.prev_time_stamp = 0) (T T' : Nat)
    (hT : T ≠ 0) (hTT : T' ≠ T) (hT' : T' ≠ 0) (p1 p2 p3 : Bool) (x1 y1 x2 y2 x3 y3 : Int) :
    ∃ e1, e.got_events
        [{ on_off := p1, x := x1, y := y1, t := T }, { on_off := p2, x := x2, y := y2, t := T },
         { on_off := p3, x := x3, y := y3, t := T' }]
      = some
          (e1,
           [{ on_events :=
                ([(p1, x1, y1), (p2, x2, y2)].filter (fun q => q.1)).map
                  (fun q => (u16 q.2.1, u16 q.2.2)),
              off_events :=
                ([(p1, x1, y1), (p2, x2, y2)].filter (fun q => !q.1)).map
                  (fun q => (u16 q.2.1, u16 q.2.2)),
              t := T }])
      ∧ e1 = { e with
              prev_time_stamp := T',
              current_on_events :=
                ([(p3, x3, y3)].filter (fun q => q.1)).map (fun q => (u16 q.2.1, u16 q.2.2)),
              current_off_events :=
                ([(p3, x3, y3)].filter (fun q => !q.1)).map (fun q => (u16 q.2.1, u16 q.2.2)) }
      ∧ e1.prev_time_stamp ≠ 0 := by
  have hTT' : T ≠ T' := fun h => hTT h.symm
  refine ⟨_, ?_, rfl, hT'⟩
  cases p1 <;> cases p2 <;> cases p3 <;>
    simp [DVSEncoder.got_events, DVSEncoder.got_event, DVSEncoder.open_if_idle,
      DVSEncoder.close_if_new, DVSEncoder.store, event_capacity, h0, hT, hTT, hTT']

/-- Two events at timestamp 5003 and one at 5004 on a fresh encoder. -/
theorem frame_boundary_witness :
    DVSEncoder.new.prev_time_stamp = 0 ∧ (5003 : Nat) ≠ 0 ∧ (5004 : Nat) ≠ 5003 ∧
    (5004 : Nat) ≠ 0 ∧
    DVSEncoder.new.got_events
        [{ on_off := true, x := 309, y := 471, t := 5003 },
         { on_off := false, x := 309, y := 470, t := 5003 },
         { on_off := true, x := 308, y := 12, t := 5004 }]
      = some
          ({ DVSEncoder.new with prev_time_stamp := 5004, current_on_events := [(308, 12)] },
           [{ on_events := [(309, 471)], off_events := [(309, 470)], t := 5003 }]) := by
  obtain ⟨e1, h1, h2, _⟩ := frame_boundary DVSEncoder.new (by decide) 5003 5004 (by decide)
    (by decide) (by decide) true false true 309 471 309 470 308 12
  refine ⟨by decide, by decide, by decide, by decide, ?_⟩
  rw [h1, h2]
  decide

/-- Claim C10. `receive` decodes the first `4 * (len / 4)` bytes only: the calls of
`got_event`, the loop state on exit and the result of `receive` are those of the
truncated buffer; a 7-byte buffer is decoded as its first 4 bytes, and a buffer of
fewer than 4 bytes makes no call, signals nothing and leaves every member as it was. -/
theorem trailing_bytes_discarded (e : DVSEncoder) (buf : List Byte) :
    e.decode buf = e.decode (buf.take (4 * (buf.length / 4)))
    ∧ e.receive buf = e.receive (buf.take (4 * (buf.length / 4)))
    ∧ (buf.length = 7 → e.receive buf = e.receive (buf.take 4))
    ∧ (buf.length < 4 →
        e.decode buf = some (e.entry_state, []) ∧ e.receive buf = some (e, [])) := by
  have hd : e.decode buf = e.decode (buf.take (4 * (buf.length / 4))) := by
    rw [decode_eq_units, decode_eq_units]
    have hsplit := decode_units_append (buf.length / 4) (buf.take (4 * (buf.length / 4)))
      (buf.drop (4 * (buf.length / 4))) e.entry_state (by rw [List.length_take]; omega)
    rw [List.take_append_drop] at hsplit
    rw [hsplit]
    cases hA : decode_units e.entry_state (buf.take (4 * (buf.length / 4))) with
    | none => rfl
    | some r =>
      rw [Option.some_bind, decode_units_short _ (buf.drop (4 * (buf.length / 4)))
        (by rw [List.length_drop]; omega)]
      simp
  have hr : e.receive buf = e.receive (buf.take (4 * (buf.length / 4))) := by
    unfold DVSEncoder.receive
    rw [← hd]
  refine ⟨hd, hr, ?_, ?_⟩
  · intro h7
    rw [hr, h7]
  · intro h4
    have h0 : e.decode buf = some (e.entry_state, []) := by
      rw [decode_eq_units, decode_units_short _ _ h4]
    exact ⟨h0, receive_of_no_events e buf _ h0⟩

/-- A 7-byte buffer against its first 4 bytes, and a 3-byte buffer, on a fresh encoder. -/
theorem trailing_bytes_discarded_witness :
    ([0x80, 0x05, 0x00, 0x03, 0x80, 0x05, 0x00] : List Byte).length = 7 ∧
    ([0x80, 0x05, 0x00] : List Byte).length < 4 ∧
    DVSEncoder.new.receive [0x80, 0x05, 0x00, 0x03, 0x80, 0x05, 0x00]
      = DVSEncoder.new.receive [0x80, 0x05, 0x00, 0x03] ∧
    DVSEncoder.new.receive [0x80, 0x05, 0x00] = some (DVSEncoder.new, []) :=
  ⟨by decide, by decide,
   (trailing_bytes_discarded DVSEncoder.new [0x80, 0x05, 0x00, 0x03, 0x80, 0x05, 0x00]).2.2.1
      (by decide),
   ((trailing_bytes_discarded DVSEncoder.new [0x80, 0x05, 0x00]).2.2.2 (by decide)).2⟩

theorem decode_packet_ignored (s : DecoderState) (b0 b1 b2 b3 : Byte)
    (hn : b0.val &&& 0x80 = 0) (h4 : b0.val &&& 0x7C ≠ 0x04) (h8 : b0.val &&& 0x7C ≠ 0x08) :
    decode_packet s b0 b1 b2 b3 = some (s, []) := by
  unfold decode_packet
  simp [hn, h4, h8]

/-- Claim C11. On a normal packet (`b0 & 0x80` clear) whose header `b0 & 0x7C` is
neither `0x04` nor `0x08` the loop body calls `got_event` never and leaves `longTs`,
`shortTs`, `timeStamp` and `posX` as they were. The packets after it are decoded as if
it were absent: a buffer with the packet at an offset that is a multiple of 4 gives
the events, the loop state and the result of the buffer without it. -/
theorem ignored_packet (s : DecoderState) (b0 b1 b2 b3 : Byte)
    (hn : b0.val &&& 0x80 = 0) (h4 : b0.val &&& 0x7C ≠ 0x04) (h8 : b0.val &&& 0x7C ≠ 0x08) :
    decode_packet s b0 b1 b2 b3 = some (s, [])
    ∧ (∀ (e : DVSEncoder) (A rest : List Byte), 4 ∣ A.length →
        e.decode (A ++ b0 :: b1 :: b2 :: b3 :: rest) = e.decode (A ++ rest)
        ∧ e.receive (A ++ b0 :: b1 :: b2 :: b3 :: rest) = e.receive (A ++ rest)) := by
  have hp := decode_packet_ignored s b0 b1 b2 b3 hn h4 h8
  refine ⟨hp, ?_⟩
  intro e A rest hA
  obtain ⟨k, hk⟩ := hA
  have hd : e.decode (A ++ b0 :: b1 :: b2 :: b3 :: rest) = e.decode (A ++ rest) := by
    rw [decode_eq_units, decode_eq_units, decode_units_append k A _ _ hk,
      decode_units_append k A rest _ hk]
    congr 1
    funext r
    rw [decode_units_cons, decode_packet_ignored _ b0 b1 b2 b3 hn h4 h8, Option.some_bind]
    cases decode_units r.1 rest <;> simp
  refine ⟨hd, ?_⟩
  unfold DVSEncoder.receive
  rw [hd]

/-- A packet-ID packet `40 12 34 56` between a column packet and a group packet. -/
theorem ignored_packet_witness :
    (0x40 : Byte).val &&& 0x80 = 0 ∧ (0x40 : Byte).val &&& 0x7C ≠ 0x04 ∧
    (0x40 : Byte).val &&& 0x7C ≠ 0x08 ∧ 4 ∣ ([0x04, 0x00, 0x18, 0x0A] : List Byte).length ∧
    decode_packet { longTs := 5000, shortTs := 3, timeStamp := 5003, posX := 309 }
        0x40 0x12 0x34 0x56
      = some ({ longTs := 5000, shortTs := 3, timeStamp := 5003, posX := 309 }, []) ∧
    DVSEncoder.new.decode ([0x04, 0x00, 0x18, 0x0A] ++ 0x40 :: 0x12 :: 0x34 :: 0x56 ::
        [0x80, 0x04, 0x00, 0x01])
      = DVSEncoder.new.decode ([0x04, 0x00, 0x18, 0x0A] ++ [0x80, 0x04, 0x00, 0x01]) :=
  have h := ignored_packet { longTs := 5000, shortTs := 3, timeStamp := 5003, posX := 309 }
    0x40 0x12 0x34 0x56 (by decide) (by decide) (by decide)
  ⟨by decide, by decide, by decide, by decide, h.1,
   (h.2 DVSEncoder.new [0x04, 0x00, 0x18, 0x0A] [0x80, 0x04, 0x00, 0x01] (by decide)).1⟩

/-- Claim C12. `on_trigger` signals the accumulated image as it was on entry, cell for
cell, and leaves every cell of the accumulated image at 128. -/
theorem trigger_snapshot_and_reset (g : DVSEigenToGrayScale) :
    g.on_trigger.2 = g.accumulated_image
    ∧ (∀ i j, g.on_trigger.2 i j = g.accumulated_image i j)
    ∧ (∀ i j, g.on_trigger.1.accumulated_image i j = 128) :=
  ⟨rfl, fun _ _ => rfl, fun _ _ => rfl⟩

/-- Claim C13. With no frame received in between, the second of two triggers signals
an image that is 128 everywhere, whatever the accumulator held before the first; on a
fresh accumulator both triggers signal 128 everywhere. -/
theorem idle_triggers_emit_128 (g : DVSEigenToGrayScale) :
    (∀ i j, g.on_trigger.1.on_trigger.2 i j = 128)
    ∧ (∀ i j, DVSEigenToGrayScale.new.on_trigger.2 i j = 128)
    ∧ (∀ i j, DVSEigenToGrayScale.new.on_trigger.1.on_trigger.2 i j = 128) :=
  ⟨fun _ _ => rfl, fun _ _ => rfl, fun _ _ => rfl⟩

/-! ## The steps of `got_event` -/

theorem stored_coords_single (b p : Bool) (x y : Int) (t : Nat) :
    stored_coords b [{ on_off := p, x := x, y := y, t := t }] =
      if p = b then [(u16 x, u16 y)] else [] := by
  cases p <;> cases b <;> simp [stored_coords]

theorem stored_coords_append (b : Bool) (S T : List Event) :
    stored_coords b (S ++ T) = stored_coords b S ++ stored_coords b T := by
  simp [stored_coords]

theorem stored_coords_nil (b : Bool) : stored_coords b [] = [] := rfl

theorem stored_coords_ne_nil (S : List Event) (h : S ≠ []) :
    stored_coords true S ≠ [] ∨ stored_coords false S ≠ [] := by
  cases S with
  | nil => exact absurd rfl h
  | cons ev rest =>
    cases hp : ev.on_off
    · right
      simp [stored_coords, List.filter_cons, hp]
    · left
      simp [stored_coords, List.filter_cons, hp]

theorem store_eq (e : DVSEncoder) (p : Bool) (x y : Int) (t : Nat) :
    e.store p x y =
      if (if p then e.current_on_events.length else e.current_off_events.length) < event_capacity
      then some { e with
        current_on_events :=
          e.current_on_events ++ stored_coords true [{ on_off := p, x := x, y := y, t := t }],
        current_off_events :=
          e.current_off_events ++ stored_coords false [{ on_off := p, x := x, y := y, t := t }] }
      else none := by
  cases p <;> simp [DVSEncoder.store, stored_coords_single]

theorem got_event_idle (e : DVSEncoder) (p : Bool) (x y : Int) (t : Nat)
    (h0 : e.prev_time_stamp = 0) :
    e.got_event p x y t =
      some ({ e with
          prev_time_stamp := t,
          current_on_events := stored_coords true [{ on_off := p, x := x, y := y, t := t }],
          current_off_events := stored_coords false [{ on_off := p, x := x, y := y, t := t }] },
        []) := by
  cases p <;>
    simp [DVSEncoder.got_event, DVSEncoder.open_if_idle, DVSEncoder.close_if_new,
      DVSEncoder.store, event_capacity, h0, stored_coords_single]

theorem got_event_same (e : DVSEncoder) (p : Bool) (x y : Int) (t : Nat)
    (h0 : e.prev_time_stamp ≠ 0) (ht : t = e.prev_time_stamp) :
    e.got_event p x y t = (e.store p x y).map (fun e3 => (e3, [])) := by
  subst ht
  simp [DVSEncoder.got_event, DVSEncoder.open_if_idle, DVSEncoder.close_if_new, h0]

theorem got_event_new (e : DVSEncoder) (p : Bool) (x y : Int) (t : Nat)
    (h0 : e.prev_time_stamp ≠ 0) (ht : t ≠ e.prev_time_stamp) :
    e.got_event p x y t =
      some ({ e with
          prev_time_stamp := t,
          current_on_events := stored_coords true [{ on_off := p, x := x, y := y, t := t }],
          current_off_events := stored_coords false [{ on_off := p, x := x, y := y, t := t }] },
        if e.current_on_events ≠ [] ∨ e.current_off_events ≠ [] then [e.open_frame] else []) := by
  cases p <;>
    simp [DVSEncoder.got_event, DVSEncoder.open_if_idle, DVSEncoder.close_if_new,
      DVSEncoder.store, event_capacity, h0, ht, stored_coords_single, DVSEncoder.open_frame,
      List.length_pos]

theorem got_events_cons (e : DVSEncoder) (ev : Event) (rest : List Event) (e' : DVSEncoder)
    (frames : List DVSEigenData) (h : e.got_events (ev :: rest) = some (e', frames)) :
    ∃ e1 out1 out2, e.got_event ev.on_off ev.x ev.y ev.t = some (e1, out1) ∧
      e1.got_events rest = some (e', out2) ∧ frames = out1 ++ out2 := by
  simp only [DVSEncoder.got_events] at h
  cases h1 : e.got_event ev.on_off ev.x ev.y ev.t with
  | none => simp [h1] at h
  | some r1 =>
    obtain ⟨e1, out1⟩ := r1
    simp only [h1] at h
    cases h2 : e1.got_events rest with
    | none => simp [h2] at h
    | some r2 =>
      obtain ⟨e2, out2⟩ := r2
      simp only [h2, Option.some.injEq, Prod.mk.injEq] at h
      exact ⟨e1, out1, out2, rfl, by rw [← h.1]; exact h2, h.2.symm⟩

theorem frame_of_open_segment (e : DVSEncoder) (S : List Event) (hS : segment_open e S)
    (hne : S ≠ []) : e.open_frame = frame_of_segment S := by
  obtain ⟨ht, hon, hoff⟩ := hS
  cases S with
  | nil => exact absurd rfl hne
  | cons ev rest =>
    simp only [DVSEncoder.open_frame, frame_of_segment, hon, hoff]
    rw [ht ev (List.mem_cons_self _ _)]

theorem segment_timestamps (S : List Event) (t : Nat) (h : ∀ ev ∈ S, ev.t = t) (hne : S ≠ []) :
    (frame_of_segment S).t = t := by
  cases S with
  | nil => exact absurd rfl hne
  | cons ev rest => exact h ev (List.mem_cons_self _ _)

/-- The effect of one call of `got_event` on the events of the open frame. -/
theorem got_event_step (e : DVSEncoder) (S : List Event) (ev : Event) (e1 : DVSEncoder)
    (out : List DVSEigenData) (hS : e.prev_time_stamp = 0 ∨ segment_open e S)
    (h : e.got_event ev.on_off ev.x ev.y ev.t = some (e1, out)) :
    e1.prev_time_stamp = ev.t ∧
    ((e.prev_time_stamp ≠ 0 ∧ ev.t = e.prev_time_stamp ∧ out = [] ∧ segment_open e1 (S ++ [ev]))
     ∨ (e.prev_time_stamp = 0 ∧ out = [] ∧ segment_open e1 [ev])
     ∨ (e.prev_time_stamp ≠ 0 ∧ ev.t ≠ e.prev_time_stamp ∧ S = [] ∧ out = [] ∧
          segment_open e1 [ev])
     ∨ (e.prev_time_stamp ≠ 0 ∧ ev.t ≠ e.prev_time_stamp ∧ S ≠ [] ∧
          out = [frame_of_segment S] ∧ (∀ ev1 ∈ S, ev1.t = (frame_of_segment S).t) ∧
          (frame_of_segment S).t = e.prev_time_stamp ∧ segment_open e1 [ev])) := by
  by_cases h0 : e.prev_time_stamp = 0
  · rw [got_event_idle e _ _ _ _ h0] at h
    simp only [Option.some.injEq, Prod.mk.injEq] at h
    obtain ⟨h1, h2⟩ := h
    subst h1
    refine ⟨rfl, Or.inr (Or.inl ⟨h0, h2.symm, ?_, rfl, rfl⟩)⟩
    intro ev1 hev1
    simp only [List.mem_singleton] at hev1
    rw [hev1]
  · have hS1 : segment_open e S := hS.resolve_left h0
    by_cases ht : ev.t = e.prev_time_stamp
    · rw [got_event_same e _ _ _ _ h0 ht, store_eq e ev.on_off ev.x ev.y ev.t] at h
      by_cases hc : (if ev.on_off then e.current_on_events.length
          else e.current_off_events.length) < event_capacity
      · rw [if_pos hc] at h
        simp only [Option.map_some', Option.some.injEq, Prod.mk.injEq] at h
        obtain ⟨h1, h2⟩ := h
        subst h1
        refine ⟨ht.symm, Or.inl ⟨h0, ht, h2.symm, ?_, ?_, ?_⟩⟩
        · intro ev1 hev1
          simp only [List.mem_append, List.mem_singleton] at hev1
          rcases hev1 with hm | hm
          · exact hS1.1 ev1 hm
          · rw [hm]; exact ht
        · simp only [stored_coords_append, hS1.2.1]
        · simp only [stored_coords_append, hS1.2.2]
      · rw [if_neg hc] at h
        simp at h
    · rw [got_event_new e _ _ _ _ h0 ht] at h
      simp only [Option.some.injEq, Prod.mk.injEq] at h
      obtain ⟨h1, h2⟩ := h
      subst h1
      have hopen : segment_open
          ({ e with prev_time_stamp := ev.t,
                    current_on_events := stored_coords true [ev],
                    current_off_events := stored_coords false [ev] } : DVSEncoder) [ev] := by
        refine ⟨?_, rfl, rfl⟩
        intro ev1 hev1
        simp only [List.mem_singleton] at hev1
        rw [hev1]
      by_cases hne : S = []
      · subst hne
        refine ⟨rfl, Or.inr (Or.inr (Or.inl ⟨h0, ht, rfl, ?_, hopen⟩))⟩
        rw [← h2, hS1.2.1, hS1.2.2]
        simp [stored_coords_nil]
      · refine ⟨rfl, Or.inr (Or.inr (Or.inr ⟨h0, ht, hne, ?_, ?_, ?_, hopen⟩))⟩
        · rw [← h2, if_pos, frame_of_open_segment e S hS1 hne]
          rw [hS1.2.1, hS1.2.2]
          exact stored_coords_ne_nil S hne
        · intro ev1 hev1
          rw [segment_timestamps S _ hS1.1 hne]
          exact hS1.1 ev1 hev1
        · exact segment_timestamps S _ hS1.1 hne

theorem frames_single_timestamp_aux (evs : List Event) :
    ∀ (e : DVSEncoder) (S P0 : List Event) (e' : DVSEncoder) (frames : List DVSEigenData),
      (e.prev_time_stamp = 0 ∨ segment_open e S) →
      e.got_events evs = some (e', frames) →
      ∀ f ∈ frames, ∃ pre seg post, P0 ++ S ++ evs = pre ++ seg ++ post ∧ seg ≠ [] ∧
        (∀ ev ∈ seg, ev.t = f.t) ∧ f = frame_of_segment seg := by
  induction evs with
  | nil =>
    intro e S P0 e' frames _ h f hf
    simp only [DVSEncoder.got_events, Option.some.injEq, Prod.mk.injEq] at h
    rw [← h.2] at hf
    simp at hf
  | cons ev rest ih =>
    intro e S P0 e' frames hS h f hf
    obtain ⟨e1, out1, out2, h1, h2, hfr⟩ := got_events_cons e ev rest e' frames h
    rw [hfr, List.mem_append] at hf
    obtain ⟨_, hstep⟩ := got_event_step e S ev e1 out1 hS h1
    rcases hstep with ⟨_, _, ho, hop⟩ | ⟨_, ho, hop⟩ | ⟨_, _, _, ho, hop⟩ |
        ⟨_, _, hne, ho, hts, _, hop⟩
    · rcases hf with hf | hf
      · rw [ho] at hf; simp at hf
      · obtain ⟨pre, seg, post, hsplit, hrest⟩ :=
          ih e1 (S ++ [ev]) P0 e' out2 (Or.inr hop) h2 f hf
        exact ⟨pre, seg, post, by rw [← hsplit]; simp, hrest⟩
    · rcases hf with hf | hf
      · rw [ho] at hf; simp at hf
      · obtain ⟨pre, seg, post, hsplit, hrest⟩ :=
          ih e1 [ev] (P0 ++ S) e' out2 (Or.inr hop) h2 f hf
        exact ⟨pre, seg, post, by rw [← hsplit]; simp, hrest⟩
    · rcases hf with hf | hf
      · rw [ho] at hf; simp at hf
      · obtain ⟨pre, seg, post, hsplit, hrest⟩ :=
          ih e1 [ev] (P0 ++ S) e' out2 (Or.inr hop) h2 f hf
        exact ⟨pre, seg, post, by rw [← hsplit]; simp, hrest⟩
    · rcases hf with hf | hf
      · rw [ho, List.mem_singleton] at hf
        subst hf
        exact ⟨P0, S, ev :: rest, rfl, hne, hts, rfl⟩
      · obtain ⟨pre, seg, post, hsplit, hrest⟩ :=
          ih e1 [ev] (P0 ++ S) e' out2 (Or.inr hop) h2 f hf
        exact ⟨pre, seg, post, by rw [← hsplit]; simp, hrest⟩

theorem got_event_same_some (e : DVSEncoder) (p : Bool) (x y : Int) (t : Nat)
    (h0 : e.prev_time_stamp ≠ 0) (ht : t = e.prev_time_stamp)
    (hc : (if p then e.current_on_events.length else e.current_off_events.length)
      < event_capacity) :
    e.got_event p x y t =
      some ({ e with
          current_on_events :=
            e.current_on_events ++ stored_coords true [{ on_off := p, x := x, y := y, t := t }],
          current_off_events :=
            e.current_off_events ++ stored_coords false [{ on_off := p, x := x, y := y, t := t }] },
        []) := by
  rw [got_event_same e p x y t h0 ht, store_eq e p x y t, if_pos hc]
  rfl

theorem got_events_returns_aux (evs : List Event) :
    ∀ (e : DVSEncoder),
      e.current_on_events.length + evs.length ≤ event_capacity →
      e.current_off_events.length + evs.length ≤ event_capacity →
      ∃ r, e.got_events evs = some r := by
  induction evs with
  | nil =>
    intro e _ _
    exact ⟨_, rfl⟩
  | cons ev rest ih =>
    intro e hon hoff
    simp only [List.length_cons] at hon hoff
    have hstep : ∃ e1 out1, e.got_event ev.on_off ev.x ev.y ev.t = some (e1, out1) ∧
        e1.current_on_events.length ≤ e.current_on_events.length + 1 ∧
        e1.current_off_events.length ≤ e.current_off_events.length + 1 := by
      have hl : ∀ b : Bool, (stored_coords b [ev]).length ≤ 1 := by
        intro b
        obtain ⟨p, x, y, t⟩ := ev
        rw [stored_coords_single]
        split <;> simp
      by_cases h0 : e.prev_time_stamp = 0
      · refine ⟨_, _, got_event_idle e _ _ _ _ h0, ?_, ?_⟩
        · exact Nat.le_trans (hl true) (by omega)
        · exact Nat.le_trans (hl false) (by omega)
      · by_cases ht : ev.t = e.prev_time_stamp
        · have hc : (if ev.on_off then e.current_on_events.length
              else e.current_off_events.length) < event_capacity := by
            split <;> omega
          refine ⟨_, _, got_event_same_some e _ _ _ _ h0 ht hc, ?_, ?_⟩
          · have := hl true
            simp only [List.length_append]
            exact Nat.add_le_add_left this _
          · have := hl false
            simp only [List.length_append]
            exact Nat.add_le_add_left this _
        · refine ⟨_, _, got_event_new e _ _ _ _ h0 ht, ?_, ?_⟩
          · exact Nat.le_trans (hl true) (by omega)
          · exact Nat.le_trans (hl false) (by omega)
    obtain ⟨e1, out1, h1, l1, l2⟩ := hstep
    obtain ⟨r, hr⟩ := ih e1 (by omega) (by omega)
    obtain ⟨e2, out2⟩ := r
    exact ⟨(e2, out1 ++ out2), by simp only [DVSEncoder.got_events, h1, hr]⟩

/-- From an encoder with no frame open, a run of at most `event_capacity` events
never stores outside the arrays. -/
theorem got_events_returns (e : DVSEncoder) (h0 : e.prev_time_stamp = 0) (evs : List Event)
    (hlen : evs.length ≤ event_capacity) : ∃ r, e.got_events evs = some r := by
  cases evs with
  | nil => exact ⟨_, rfl⟩
  | cons ev rest =>
    simp only [List.length_cons] at hlen
    have h1 := got_event_idle e ev.on_off ev.x ev.y ev.t h0
    have hl : ∀ b : Bool, (stored_coords b [ev]).length ≤ 1 := by
      intro b
      obtain ⟨p, x, y, t⟩ := ev
      rw [stored_coords_single]
      split <;> simp
    obtain ⟨r, hr⟩ := got_events_returns_aux rest
      { e with prev_time_stamp := ev.t, current_on_events := stored_coords true [ev],
               current_off_events := stored_coords false [ev] }
      (by have := hl true; simp only []; omega) (by have := hl false; simp only []; omega)
    obtain ⟨e2, out2⟩ := r
    exact ⟨(e2, [] ++ out2), by simp only [DVSEncoder.got_events, h1, hr]⟩

/-- Claim C14. From an encoder with no frame open, every frame signalled while a run of
events goes through `got_event` holds exactly the events of a non-empty stretch of
consecutive events of the run, all received with the timestamp the frame is signalled
with, the on events in the on list and the off events in the off list (coordinates as
`unsigned short`). A run of at most 640*480 events always goes through. -/
theorem frames_single_timestamp (e : DVSEncoder) (h0 : e.prev_time_stamp = 0)
    (evs : List Event) :
    (evs.length ≤ event_capacity → ∃ r, e.got_events evs = some r)
    ∧ ∀ (e1 : DVSEncoder) (frames : List DVSEigenData),
        e.got_events evs = some (e1, frames) →
        ∀ f ∈ frames, ∃ pre seg post, evs = pre ++ seg ++ post ∧ seg ≠ [] ∧
          (∀ ev ∈ seg, ev.t = f.t) ∧ f.on_events = stored_coords true seg ∧
          f.off_events = stored_coords false seg := by
  refine ⟨got_events_returns e h0 evs, ?_⟩
  intro e1 frames h f hf
  obtain ⟨pre, seg, post, hsplit, hne, hts, hfr⟩ :=
    frames_single_timestamp_aux evs e [] [] e1 frames (Or.inl h0) h f hf
  refine ⟨pre, seg, post, by simpa using hsplit, hne, hts, ?_, ?_⟩
  · rw [hfr]; rfl
  · rw [hfr]; rfl

/-- Four events at timestamps 5003, 5003, 5004, 5005 on a fresh encoder: two frames. -/
theorem frames_single_timestamp_witness :
    DVSEncoder.new.prev_time_stamp = 0 ∧
    DVSEncoder.new.got_events
        [{ on_off := true, x := 309, y := 471, t := 5003 },
         { on_off := false, x := 309, y := 470, t := 5003 },
         { on_off := true, x := 308, y := 12, t := 5004 },
         { on_off := false, x := 307, y := 13, t := 5005 }]
      = some ({ DVSEncoder.new with prev_time_stamp := 5005, current_off_events := [(307, 13)] },
              [{ on_events := [(309, 471)], off_events := [(309, 470)], t := 5003 },
               { on_events := [(308, 12)], off_events := [], t := 5004 }]) ∧
    ∃ pre seg post,
      [{ on_off := true, x := 309, y := 471, t := 5003 },
       { on_off := false, x := 309, y := 470, t := 5003 },
       { on_off := true, x := 308, y := 12, t := 5004 },
       ({ on_off := false, x := 307, y := 13, t := 5005 } : Event)] = pre ++ seg ++ post ∧
      seg ≠ [] ∧ (∀ ev ∈ seg, ev.t = 5003) ∧ stored_coords true seg = [(309, 471)] ∧
      stored_coords false seg = [(309, 470)] := by
  have hv : DVSEncoder.new.got_events
        [{ on_off := true, x := 309, y := 471, t := 5003 },
         { on_off := false, x := 309, y := 470, t := 5003 },
         { on_off := true, x := 308, y := 12, t := 5004 },
         { on_off := false, x := 307, y := 13, t := 5005 }]
      = some ({ DVSEncoder.new with prev_time_stamp := 5005, current_off_events := [(307, 13)] },
              [{ on_events := [(309, 471)], off_events := [(309, 470)], t := 5003 },
               { on_events := [(308, 12)], off_events := [], t := 5004 }]) := by decide
  obtain ⟨pre, seg, post, h1, h2, h3, h4, h5⟩ :=
    (frames_single_timestamp DVSEncoder.new rfl _).2 _ _ hv
      { on_events := [(309, 471)], off_events := [(309, 470)], t := 5003 }
      (List.mem_cons_self _ _)
  exact ⟨rfl, hv, pre, seg, post, h1, h2, h3, h4.symm, h5.symm⟩

theorem events_partitioned_aux (evs : List Event) :
    ∀ (e : DVSEncoder) (S : List Event) (e1 : DVSEncoder) (frames : List DVSEigenData),
      e.prev_time_stamp ≠ 0 → S ≠ [] → segment_open e S → (∀ ev ∈ evs, ev.t ≠ 0) →
      e.got_events evs = some (e1, frames) →
      ∃ (segs : List (List Event)) (last : List Event),
        S ++ evs = segs.flatten ++ last ∧ last ≠ [] ∧ segment_open e1 last ∧
        frames = segs.map frame_of_segment ∧
        (∀ seg ∈ segs, seg ≠ [] ∧ ∀ ev ∈ seg, ev.t = (frame_of_segment seg).t) ∧
        List.Chain' (fun a b => (frame_of_segment a).t ≠ (frame_of_segment b).t)
          (segs ++ [last]) ∧
        (∀ first ∈ (segs ++ [last]).head?, (frame_of_segment first).t = e.prev_time_stamp) := by
  induction evs with
  | nil =>
    intro e S e1 frames _ hne hop _ h
    simp only [DVSEncoder.got_events, Option.some.injEq, Prod.mk.injEq] at h
    refine ⟨[], S, by simp, hne, by rw [← h.1]; exact hop, by rw [← h.2]; rfl, ?_,
      List.chain'_singleton S, ?_⟩
    · intro seg hseg
      simp at hseg
    · intro first hfirst
      simp only [List.nil_append, List.head?_cons, Option.mem_def, Option.some.injEq] at hfirst
      rw [← hfirst]
      exact segment_timestamps S _ hop.1 hne
  | cons ev rest ih =>
    intro e S e1 frames h0 hne hop hnz h
    obtain ⟨e2, out1, out2, h1, h2, hfr⟩ := got_events_cons e ev rest e1 frames h
    have hev : ev.t ≠ 0 := hnz ev (List.mem_cons_self _ _)
    have hnz1 : ∀ ev1 ∈ rest, ev1.t ≠ 0 := fun ev1 h3 => hnz ev1 (List.mem_cons_of_mem _ h3)
    obtain ⟨hp, hstep⟩ := got_event_step e S ev e2 out1 (Or.inr hop) h1
    have hp2 : e2.prev_time_stamp ≠ 0 := by rw [hp]; exact hev
    rcases hstep with ⟨_, hsame, ho, hop1⟩ | ⟨hz, _, _⟩ | ⟨_, _, hS, _, _⟩ |
        ⟨_, hdiff, _, ho, hts, hSt, hop1⟩
    · obtain ⟨segs, last, hsplit, hl, hopl, hfrs, hsegs, hch, hhd⟩ :=
        ih e2 (S ++ [ev]) e1 out2 hp2 (by simp) hop1 hnz1 h2
      refine ⟨segs, last, by rw [← hsplit]; simp, hl, hopl, ?_, hsegs, hch, ?_⟩
      · rw [hfr, ho, hfrs]; rfl
      · intro first hfirst
        rw [hhd first hfirst, hp, hsame]
    · exact absurd hz h0
    · exact absurd hS hne
    · obtain ⟨segs, last, hsplit, hl, hopl, hfrs, hsegs, hch, hhd⟩ :=
        ih e2 [ev] e1 out2 hp2 (by simp) hop1 hnz1 h2
      refine ⟨S :: segs, last, ?_, hl, hopl, ?_, ?_, ?_, ?_⟩
      · rw [List.flatten_cons, List.append_assoc, ← hsplit]; simp
      · rw [hfr, ho, hfrs]; rfl
      · intro seg hseg
        rcases List.mem_cons.mp hseg with hs | hs
        · rw [hs]; exact ⟨hne, hts⟩
        · exact hsegs seg hs
      · rw [List.cons_append, List.chain'_cons']
        refine ⟨?_, hch⟩
        intro first hfirst
        rw [hhd first hfirst, hp, hSt]
        exact fun heq => hdiff heq.symm
      · intro first hfirst
        simp only [List.cons_append, List.head?_cons, Option.mem_def,
          Option.some.injEq] at hfirst
        rw [← hfirst]
        exact hSt

/-- Claim C18 fails as stated. Of three on-events at timestamps 5, 0 and 7 given to a
fresh encoder, the one at timestamp 0 is in no frame: the frame at 5 is signalled with
the first event, and the open frame at 7 holds the third only. -/
theorem zero_timestamp_event_lost :
    DVSEncoder.new.got_events
        [{ on_off := true, x := 1, y := 1, t := 5 }, { on_off := true, x := 2, y := 2, t := 0 },
         { on_off := true, x := 3, y := 3, t := 7 }]
      = some ({ DVSEncoder.new with prev_time_stamp := 7, current_on_events := [(3, 3)] },
              [{ on_events := [(1, 1)], off_events := [], t := 5 }]) := by
  decide

/-- Claim C18, amended. From an encoder with no frame open, a non-empty run of events
whose timestamps are all non-zero is cut into its maximal stretches of one timestamp:
consecutive non-empty stretches, each of one timestamp, neighbouring stretches of
different timestamps. The frames signalled, followed by the open frame, are exactly
the frames of these stretches, in order: every event is in one frame, of its own
timestamp, in the on or off list by polarity, in arrival order, and consecutive events
of one timestamp are in the same frame. This holds for every run whose stores stay
inside the arrays, and a run of at most 640*480 events always goes through. -/
theorem events_partitioned_into_frames (e : DVSEncoder) (h0 : e.prev_time_stamp = 0)
    (evs : List Event) (hne : evs ≠ []) (hnz : ∀ ev ∈ evs, ev.t ≠ 0) :
    (evs.length ≤ event_capacity → ∃ r, e.got_events evs = some r)
    ∧ ∀ (e1 : DVSEncoder) (frames : List DVSEigenData),
        e.got_events evs = some (e1, frames) →
        ∃ segs : List (List Event),
          segs.flatten = evs ∧
          (∀ seg ∈ segs, seg ≠ [] ∧ ∀ ev ∈ seg, ev.t = (frame_of_segment seg).t) ∧
          List.Chain' (fun a b => (frame_of_segment a).t ≠ (frame_of_segment b).t) segs ∧
          frames ++ [e1.open_frame] = segs.map frame_of_segment := by
  refine ⟨got_events_returns e h0 evs, ?_⟩
  intro e1 frames h
  cases evs with
  | nil => exact absurd rfl hne
  | cons ev rest =>
    obtain ⟨e2, out1, out2, h1, h2, hfr⟩ := got_events_cons e ev rest e1 frames h
    have hev : ev.t ≠ 0 := hnz ev (List.mem_cons_self _ _)
    have hnz1 : ∀ ev1 ∈ rest, ev1.t ≠ 0 := fun ev1 h3 => hnz ev1 (List.mem_cons_of_mem _ h3)
    obtain ⟨hp, hstep⟩ := got_event_step e [] ev e2 out1 (Or.inl h0) h1
    have hp2 : e2.prev_time_stamp ≠ 0 := by rw [hp]; exact hev
    rcases hstep with ⟨hz, _⟩ | ⟨_, ho, hop1⟩ | ⟨hz, _⟩ | ⟨hz, _⟩
    · exact absurd h0 hz
    · obtain ⟨segs, last, hsplit, hl, hopl, hfrs, hsegs, hch, _⟩ :=
        events_partitioned_aux rest e2 [ev] e1 out2 hp2 (by simp) hop1 hnz1 h2
      refine ⟨segs ++ [last], ?_, ?_, hch, ?_⟩
      · have hs : ev :: rest = segs.flatten ++ last := hsplit
        rw [hs]; simp
      · intro seg hseg
        rcases List.mem_append.mp hseg with hs | hs
        · exact hsegs seg hs
        · rw [List.mem_singleton.mp hs]
          refine ⟨hl, ?_⟩
          intro ev1 hev1
          rw [segment_timestamps last _ hopl.1 hl]
          exact hopl.1 ev1 hev1
      · rw [hfr, ho, hfrs, frame_of_open_segment e1 last hopl hl]; simp
    · exact absurd h0 hz
    · exact absurd h0 hz

/-- Three events at timestamps 5003, 5003, 5004 on a fresh encoder: the two stretches
are the first two events and the third. -/
theorem events_partitioned_into_frames_witness :
    DVSEncoder.new.prev_time_stamp = 0 ∧
    ([{ on_off := true, x := 309, y := 471, t := 5003 },
      { on_off := false, x := 309, y := 470, t := 5003 },
      { on_off := true, x := 308, y := 12, t := 5004 }] : List Event) ≠ [] ∧
    (∀ ev ∈ ([{ on_off := true, x := 309, y := 471, t := 5003 },
      { on_off := false, x := 309, y := 470, t := 5003 },
      { on_off := true, x := 308, y := 12, t := 5004 }] : List Event), ev.t ≠ 0) ∧
    ∃ segs : List (List Event),
      segs.flatten = [{ on_off := true, x := 309, y := 471, t := 5003 },
        { on_off := false, x := 309, y := 470, t := 5003 },
        { on_off := true, x := 308, y := 12, t := 5004 }] ∧
      List.Chain' (fun a b => (frame_of_segment a).t ≠ (frame_of_segment b).t) segs ∧
      [{ on_events := [(309, 471)], off_events := [(309, 470)], t := 5003 },
       ({ on_events := [(308, 12)], off_events := [], t := 5004 } : DVSEigenData)]
        = segs.map frame_of_segment := by
  have hv : DVSEncoder.new.got_events
        [{ on_off := true, x := 309, y := 471, t := 5003 },
         { on_off := false, x := 309, y := 470, t := 5003 },
         { on_off := true, x := 308, y := 12, t := 5004 }]
      = some ({ DVSEncoder.new with prev_time_stamp := 5004, current_on_events := [(308, 12)] },
              [{ on_events := [(309, 471)], off_events := [(309, 470)], t := 5003 }]) := by
    decide
  have hnz : ∀ ev ∈ ([{ on_off := true, x := 309, y := 471, t := 5003 },
      { on_off := false, x := 309, y := 470, t := 5003 },
      { on_off := true, x := 308, y := 12, t := 5004 }] : List Event), ev.t ≠ 0 := by decide
  obtain ⟨segs, h1, _, h2, h3⟩ :=
    (events_partitioned_into_frames DVSEncoder.new rfl _ (by decide) hnz).2 _ _ hv
  exact ⟨rfl, by decide, hnz, segs, h1, h2, h3⟩

/-! ### The capacity of the event arrays -/

theorem got_event_eq_none_iff (e : DVSEncoder) (p : Bool) (x y : Int) (t : Nat) :
    e.got_event p x y t = none ↔
      (e.prev_time_stamp ≠ 0 ∧ t = e.prev_time_stamp ∧
        event_capacity ≤ (if p then e.current_on_events.length
          else e.current_off_events.length)) := by
  by_cases h0 : e.prev_time_stamp = 0
  · rw [got_event_idle e p x y t h0]
    simp [h0]
  · by_cases ht : t = e.prev_time_stamp
    · rw [got_event_same e p x y t h0 ht, store_eq e p x y t]
      by_cases hc : (if p then e.current_on_events.length
          else e.current_off_events.length) < event_capacity
      · rw [if_pos hc]
        constructor
        · intro h
          simp at h
        · intro h
          exact absurd hc (Nat.not_lt.mpr h.2.2)
      · rw [if_neg hc]
        constructor
        · intro _
          exact ⟨h0, ht, Nat.not_lt.mp hc⟩
        · intro _
          rfl
    · rw [got_event_new e p x y t h0 ht]
      simp [ht]

theorem got_events_same_timestamp (ev : Event) (n : Nat) :
    ∀ (e : DVSEncoder), e.prev_time_stamp = ev.t → ev.t ≠ 0 → ev.on_off = true →
      e.current_on_events.length ≤ event_capacity →
      e.got_events (List.replicate n ev) =
        if e.current_on_events.length + n ≤ event_capacity then
          some ({ e with current_on_events :=
                    e.current_on_events ++ List.replicate n (u16 ev.x, u16 ev.y) }, [])
        else none := by
  induction n with
  | zero =>
    intro e _ _ _ hl
    simp [DVSEncoder.got_events, hl]
  | succ n ih =>
    intro e hp hz hon hl
    obtain ⟨p, x, y, t⟩ := ev
    simp only at hp hz hon
    subst hon
    have h0 : e.prev_time_stamp ≠ 0 := by rw [hp]; exact hz
    by_cases hc : e.current_on_events.length < event_capacity
    · have hs := got_event_same_some e true x y t h0 hp.symm (by simpa using hc)
      simp only [stored_coords_single, if_true, Bool.true_eq_false, if_false,
        List.append_nil] at hs
      have hrec := ih { e with current_on_events := e.current_on_events ++ [(u16 x, u16 y)] }
        hp hz rfl (by simp only [List.length_append, List.length_singleton]; omega)
      simp only [List.replicate_succ, DVSEncoder.got_events, hs, hrec]
      simp only [List.length_append, List.length_singleton]
      by_cases hc2 : e.current_on_events.length + (n + 1) ≤ event_capacity
      · have hc3 : e.current_on_events.length + 1 + n ≤ event_capacity := by omega
        simp [hc2, hc3]
      · have hc3 : ¬ e.current_on_events.length + 1 + n ≤ event_capacity := by omega
        simp [hc2, hc3]
    · have hn : e.got_event true x y t = none := by
        rw [got_event_eq_none_iff]
        exact ⟨h0, hp.symm, by simpa using hc⟩
      have hc2 : ¬ e.current_on_events.length + (n + 1) ≤ event_capacity := by omega
      simp only [List.replicate_succ, DVSEncoder.got_events, hn, if_neg hc2]

theorem got_events_fill (ev : Event) (n : Nat) (hn : 0 < n) (hz : ev.t ≠ 0)
    (hon : ev.on_off = true) (e : DVSEncoder) (h0 : e.prev_time_stamp = 0) :
    e.got_events (List.replicate n ev) =
      if n ≤ event_capacity then
        some ({ e with prev_time_stamp := ev.t,
                       current_on_events := List.replicate n (u16 ev.x, u16 ev.y),
                       current_off_events := [] }, [])
      else none := by
  obtain ⟨p, x, y, t⟩ := ev
  simp only at hz hon
  subst hon
  cases n with
  | zero => exact absurd hn (Nat.lt_irrefl 0)
  | succ n =>
    have hstart := got_event_idle e true x y t h0
    simp only [stored_coords_single, if_true, Bool.true_eq_false, if_false] at hstart
    have hrun := got_events_same_timestamp { on_off := true, x := x, y := y, t := t } n
      { e with prev_time_stamp := t, current_on_events := [(u16 x, u16 y)],
               current_off_events := [] }
      rfl hz rfl (by simp [event_capacity])
    simp only [List.length_singleton] at hrun
    simp only [List.replicate_succ, DVSEncoder.got_events, hstart]
    rw [hrun]
    by_cases hc : n + 1 ≤ event_capacity
    · have hc2 : 1 + n ≤ event_capacity := by omega
      simp [hc, hc2]
    · have hc2 : ¬ 1 + n ≤ event_capacity := by omega
      simp [hc, hc2]

/-- When the list chosen by the polarity holds `event_capacity` pairs or more, the
index written by `got_event` is outside the array. -/
theorem store_index_outside (e : DVSEncoder) (p : Bool)
    (h : event_capacity ≤ (if p then e.current_on_events.length
      else e.current_off_events.length)) :
    event_array_length ≤ e.store_index p := by
  cases p <;> simp [DVSEncoder.store_index, event_array_length, event_capacity] at h ⊢ <;> omega

/-- Claim C17, evaluated. A fresh encoder given 640*480 on-events at timestamp 5003
holds them all in `current_on_events`, whose 640*480*2 elements are then all used.
The next on-event at the same timestamp is stored at elements 614400 and 614401,
outside the array: `got_event` makes no check and has no error result, and the run of
640*480 + 1 events ends in that store. -/
theorem event_store_past_capacity :
    DVSEncoder.new.got_events
        (List.replicate 307200 { on_off := true, x := 10, y := 20, t := 5003 })
      = some ({ prev_time_stamp := 5003, current_on_events := List.replicate 307200 (10, 20),
                current_off_events := [], longTs := 0, shortTs := 0, timeStamp := 0 }, [])
    ∧ event_array_length = 2 * 307200
    ∧ ({ prev_time_stamp := 5003, current_on_events := List.replicate 307200 (10, 20),
         current_off_events := [], longTs := 0, shortTs := 0,
         timeStamp := 0 } : DVSEncoder).got_event true 10 20 5003 = none
    ∧ DVSEncoder.new.got_events
        (List.replicate 307201 { on_off := true, x := 10, y := 20, t := 5003 }) = none := by
  have hfill := fun n hn => got_events_fill { on_off := true, x := 10, y := 20, t := 5003 } n hn
    (by decide) rfl DVSEncoder.new rfl
  have hu : u16 10 = 10 ∧ u16 20 = 20 := by decide
  simp only [hu.1, hu.2] at hfill
  refine ⟨?_, ?_, ?_, ?_⟩
  · exact (hfill 307200 (by decide)).trans (if_pos (by decide))
  · decide
  · rw [got_event_eq_none_iff, if_pos rfl, List.length_replicate]
    exact ⟨by decide, rfl, by decide⟩
  · exact (hfill 307201 (by decide)).trans (if_neg (by decide))

/-! ### The timestamp relation on reachable states -/

theorem decode_packet_timestamps (s : DecoderState) (b0 b1 b2 b3 : Byte)
    (r : DecoderState × List Event)
    (h : timestamps_exact s.longTs s.shortTs s.timeStamp)
    (hr : decode_packet s b0 b1 b2 b3 = some r) :
    timestamps_exact r.1.longTs r.1.shortTs r.1.timeStamp := by
  obtain ⟨hs, hl, ht⟩ := h
  by_cases hg : b0.val &&& 0x80 = 0
  · by_cases h4 : b0.val &&& 0x7C = 0x04
    · rw [decode_packet_column s b0 b1 b2 b3 hg h4, Option.some.injEq] at hr
      subst hr
      have hb := sub_timestamp_le b1 b2
      refine ⟨hb, hl, ?_⟩
      simp only [u32]
      omega
    · by_cases h8 : b0.val &&& 0x7C = 0x08
      · by_cases hfit :
            (((b1.val &&& 0x3F) <<< 16) ||| (b2.val <<< 8) ||| b3.val) * 1000 ≤ INT_MAX
        · rw [decode_packet_reference s b0 b1 b2 b3 hg h8 hfit, Option.some.injEq] at hr
          subst hr
          simp only [INT_MAX] at hfit
          refine ⟨hs, ?_, ?_⟩
          · show (((b1.val &&& 0x3F) <<< 16) ||| (b2.val <<< 8) ||| b3.val) * 1000 ≤ 2147483000
            omega
          · show u32 ((((b1.val &&& 0x3F) <<< 16) ||| (b2.val <<< 8) ||| b3.val) * 1000
                + s.shortTs)
              = (((b1.val &&& 0x3F) <<< 16) ||| (b2.val <<< 8) ||| b3.val) * 1000 + s.shortTs
            simp only [u32]
            omega
        · rw [decode_packet_reference_overflow s b0 b1 b2 b3 hg h8 (Nat.not_le.mp hfit)] at hr
          exact absurd hr (by simp)
      · rw [decode_packet_ignored s b0 b1 b2 b3 hg h4 h8, Option.some.injEq] at hr
        subst hr
        exact ⟨hs, hl, ht⟩
  · rw [decode_packet_group s b0 b1 b2 b3 hg, Option.some.injEq] at hr
    subst hr
    exact ⟨hs, hl, ht⟩

theorem decode_units_timestamps (n : Nat) :
    ∀ (buf : List Byte) (s : DecoderState) (r : DecoderState × List Event), buf.length = n →
      timestamps_exact s.longTs s.shortTs s.timeStamp →
      decode_units s buf = some r →
      timestamps_exact r.1.longTs r.1.shortTs r.1.timeStamp := by
  induction n using Nat.strong_induction_on with
  | _ n ih =>
    intro buf s r hn h hr
    by_cases hlen : buf.length < 4
    · rw [decode_units_short s buf hlen, Option.some.injEq] at hr
      subst hr
      exact h
    · match buf, hn, hlen with
      | b0 :: b1 :: b2 :: b3 :: rest, hn, _ =>
        rw [decode_units_cons] at hr
        cases hp : decode_packet s b0 b1 b2 b3 with
        | none => simp [hp] at hr
        | some r1 =>
          rw [hp, Option.some_bind] at hr
          cases hu : decode_units r1.1 rest with
          | none => simp [hu] at hr
          | some r2 =>
            rw [hu, Option.map_some', Option.some.injEq] at hr
            subst hr
            exact ih rest.length (by simp at hn; omega) rest r1.1 r2 rfl
              (decode_packet_timestamps s b0 b1 b2 b3 r1 h hp) hu
      | [], _, h => exact absurd (by simp) h
      | [_], _, h => exact absurd (by simp) h
      | [_, _], _, h => exact absurd (by simp) h
      | [_, _, _], _, h => exact absurd (by simp) h

theorem decode_timestamps (e : DVSEncoder) (buf : List Byte) (r : DecoderState × List Event)
    (h : timestamps_exact e.longTs e.shortTs e.timeStamp) (hr : e.decode buf = some r) :
    timestamps_exact r.1.longTs r.1.shortTs r.1.timeStamp := by
  rw [decode_eq_units] at hr
  exact decode_units_timestamps buf.length buf e.entry_state r rfl h hr

theorem receive_timestamps (e : DVSEncoder) (buf : List Byte) (e1 : DVSEncoder)
    (frames : List DVSEigenData) (h : timestamps_exact e.longTs e.shortTs e.timeStamp)
    (hr : e.receive buf = some (e1, frames)) :
    timestamps_exact e1.longTs e1.shortTs e1.timeStamp := by
  unfold DVSEncoder.receive at hr
  cases hd : e.decode buf with
  | none => simp [hd] at hr
  | some r =>
    simp only [hd] at hr
    cases hg : e.got_events r.2 with
    | none => simp [hg] at hr
    | some p =>
      simp only [hg, Option.map_some', Option.some.injEq, Prod.mk.injEq] at hr
      rw [← hr.1]
      exact decode_timestamps e buf r h hd

theorem receive_all_timestamps (bufs : List (List Byte)) :
    ∀ (e e1 : DVSEncoder), timestamps_exact e.longTs e.shortTs e.timeStamp →
      e.receive_all bufs = some e1 → timestamps_exact e1.longTs e1.shortTs e1.timeStamp := by
  induction bufs with
  | nil =>
    intro e e1 h hr
    simp only [DVSEncoder.receive_all, Option.some.injEq] at hr
    rw [← hr]
    exact h
  | cons buf rest ih =>
    intro e e1 h hr
    simp only [DVSEncoder.receive_all] at hr
    cases h1 : e.receive buf with
    | none => simp [h1] at hr
    | some p =>
      obtain ⟨e2, frames⟩ := p
      simp only [h1] at hr
      exact ih e2 e1 (receive_timestamps e buf e2 frames h h1) hr

/-- In every encoder state that calls of `receive` with a defined result reach from the
constructor state, and in every loop state of a further call with a defined result,
`shortTs <= 1023`, `longTs <= 2147483000` and `timeStamp = longTs + shortTs` as natural
numbers; the sum is below 2^32. -/
theorem reachable_timestamps (bufs : List (List Byte)) (e : DVSEncoder)
    (h : DVSEncoder.new.receive_all bufs = some e) :
    e.shortTs ≤ 1023 ∧ e.longTs ≤ 2147483000 ∧ e.timeStamp = e.longTs + e.shortTs
    ∧ e.longTs + e.shortTs < 2 ^ 32
    ∧ ∀ (buf : List Byte) (r : DecoderState × List Event), e.decode buf = some r →
        r.1.shortTs ≤ 1023 ∧ r.1.longTs ≤ 2147483000 ∧
        r.1.timeStamp = r.1.longTs + r.1.shortTs := by
  have h0 : timestamps_exact DVSEncoder.new.longTs DVSEncoder.new.shortTs
      DVSEncoder.new.timeStamp := by
    unfold timestamps_exact
    decide
  have h1 := receive_all_timestamps bufs DVSEncoder.new e h0 h
  refine ⟨h1.1, h1.2.1, h1.2.2, ?_, fun buf r hr => decode_timestamps e buf r h1 hr⟩
  have := h1.1
  have := h1.2.1
  omega

/-- A fresh encoder after a buffer with reference value 5 and sub-timestamp 3, then a
group packet. -/
theorem reachable_timestamps_witness :
    DVSEncoder.new.receive_all
        [[0x08, 0x00, 0x00, 0x05, 0x04, 0x00, 0x18, 0x0A], [0x80, 0x04, 0x00, 0x01]]
      = some { prev_time_stamp := 5003, current_on_events := [], current_off_events := [(0, 471)],
               longTs := 5000, shortTs := 3, timeStamp := 5003 } ∧
    (3 : Nat) ≤ 1023 ∧ (5000 : Nat) ≤ 2147483000 ∧ (5003 : Nat) = 5000 + 3 := by
  have hv : DVSEncoder.new.receive_all
        [[0x08, 0x00, 0x00, 0x05, 0x04, 0x00, 0x18, 0x0A], [0x80, 0x04, 0x00, 0x01]]
      = some { prev_time_stamp := 5003, current_on_events := [], current_off_events := [(0, 471)],
               longTs := 5000, shortTs := 3, timeStamp := 5003 } := by
    simp only [DVSEncoder.receive_all, receive_eq_units]
    decide
  have h := reachable_timestamps _ _ hv
  exact ⟨hv, h.1, h.2.1, h.2.2.1⟩

/-- Claim C19, evaluated. From the constructor state, the one-packet buffers
`08 20 C4 9C` (reference value 2147484) and `08 3F FF FF` (reference value 4194303, the
one that would give `longTs = 4194303000`) make `receive` form a product above
`INT_MAX` in `int`: a signed overflow, after which no decoder state is defined. The
buffer `08 20 C4 9B` gives the largest `longTs` reached with a defined result,
2147483000. -/
theorem reachable_state_overflow :
    DVSEncoder.new.receive_all [[0x08, 0x20, 0xC4, 0x9C]] = none
    ∧ DVSEncoder.new.receive_all [[0x08, 0x3F, 0xFF, 0xFF]] = none
    ∧ INT_MAX < 4194303 * 1000
    ∧ DVSEncoder.new.receive_all [[0x08, 0x20, 0xC4, 0x9B]] =
        some { DVSEncoder.new with longTs := 2147483000, timeStamp := 2147483000 } := by
  refine ⟨?_, ?_, by decide, ?_⟩
  · simp only [DVSEncoder.receive_all, receive_eq_units]
    decide
  · simp only [DVSEncoder.receive_all, receive_eq_units]
    decide
  · simp only [DVSEncoder.receive_all, receive_eq_units]
    decide

/-- Claim C16. `Dequeue` on the empty queue returns the `NULL` pointer with `*len = 0`
and leaves the queue empty, also when called again. -/
theorem dequeue_empty :
    Dequeue [] = ([], 0, 0) ∧ (Dequeue []).1 = [] ∧ (Dequeue (Dequeue []).1) = ([], 0, 0) :=
  ⟨rfl, rfl, rfl⟩

set_option maxRecDepth 100000 in
theorem set_bits_length_eq_popcount :
    ∀ b : Byte, ((List.range 8).filter (fun n => b.val.testBit n)).length = popcount b.val := by
  decide

set_option maxRecDepth 100000 in
theorem popcount_byte_le : ∀ b : Byte, popcount b.val ≤ 8 := by
  decide

/-- Claim C20. On a group packet the loop body makes exactly
`popcount(b3) + popcount(b2)` calls of `got_event`, at most 16, every one with `x` the
current `posX` and `t` the current `timeStamp`, and leaves the loop state as it was. -/
theorem group_packet_event_count (s : DecoderState) (b0 b1 b2 b3 : Byte)
    (hg : b0.val &&& 0x80 ≠ 0) :
    ∃ evs, decode_packet s b0 b1 b2 b3 = some (s, evs)
      ∧ evs.length = popcount b3.val + popcount b2.val
      ∧ evs.length ≤ 16
      ∧ (∀ ev ∈ evs, ev.x = s.posX ∧ ev.t = s.timeStamp) := by
  have h3 := set_bits_length_eq_popcount b3
  have h2 := set_bits_length_eq_popcount b2
  have l3 := popcount_byte_le b3
  have l2 := popcount_byte_le b2
  refine ⟨_, decode_packet_group s b0 b1 b2 b3 hg, ?_, ?_, ?_⟩
  · simp only [List.length_append, List.length_map, h3, h2]
  · simp only [List.length_append, List.length_map, h3, h2]
    omega
  · intro ev hev
    simp only [List.mem_append, List.mem_map] at hev
    rcases hev with ⟨n, _, rfl⟩ | ⟨n, _, rfl⟩ <;> exact ⟨rfl, rfl⟩

/-- The packet `84 06 82 01` makes three calls. -/
theorem group_packet_event_count_witness :
    (0x84 : Byte).val &&& 0x80 ≠ 0 ∧
    (∃ evs, decode_packet { longTs := 5000, shortTs := 3, timeStamp := 5003, posX := 309 }
        0x84 0x06 0x82 0x01
          = some ({ longTs := 5000, shortTs := 3, timeStamp := 5003, posX := 309 }, evs)
      ∧ evs.length = 3) ∧
    popcount (0x01 : Byte).val + popcount (0x82 : Byte).val = 3 := by
  obtain ⟨evs, h1, h2, _⟩ := group_packet_event_count
    { longTs := 5000, shortTs := 3, timeStamp := 5003, posX := 309 }
    0x84 0x06 0x82 0x01 (by decide)
  exact ⟨by decide, ⟨evs, h1, h2.trans (by decide)⟩, by decide⟩

/-! ## Coordinates and the accumulated image -/

/-- Claim C21, evaluated. A fresh encoder receives one buffer: reference value 5, the
group packet `80 FC 00 01` (row group 63), column 10 with sub-timestamp 3, the group
packet `80 04 00 01`. The first group packet gives an event at `y = 479 - 504 = -25`,
which the frame signalled at timestamp 5000 holds as the `unsigned short` 65511;
`DVSEigenToGrayScale::receive` then addresses `accumulated_image(0, 65511)`, outside
the 320 x 480 matrix. A column packet with column 1023 sets `posX = -704`. -/
theorem event_outside_grid :
    DVSEncoder.new.decode
        [0x08, 0x00, 0x00, 0x05, 0x80, 0xFC, 0x00, 0x01,
         0x04, 0x00, 0x18, 0x0A, 0x80, 0x04, 0x00, 0x01]
      = some ({ longTs := 5000, shortTs := 3, timeStamp := 5003, posX := 309 },
              [{ on_off := false, x := 0, y := -25, t := 5000 },
               { on_off := false, x := 309, y := 471, t := 5003 }])
    ∧ DVSEncoder.new.receive
        [0x08, 0x00, 0x00, 0x05, 0x80, 0xFC, 0x00, 0x01,
         0x04, 0x00, 0x18, 0x0A, 0x80, 0x04, 0x00, 0x01]
      = some ({ prev_time_stamp := 5003, current_on_events := [],
                current_off_events := [(309, 471)],
                longTs := 5000, shortTs := 3, timeStamp := 5003 },
              [{ on_events := [], off_events := [(0, 65511)], t := 5000 }])
    ∧ (DVSEigenToGrayScale.new.receive
        { on_events := [], off_events := [(0, 65511)], t := 5000 }).isNone = true
    ∧ decode_packet { longTs := 5000, shortTs := 3, timeStamp := 5003, posX := 0 }
        0x04 0x00 0x1B 0xFF
      = some ({ longTs := 5000, shortTs := 3, timeStamp := 5003, posX := -704 }, []) := by
  refine ⟨?_, ?_, ?_, ?_⟩
  · rw [decode_eq_units]; decide
  · rw [receive_eq_units]; decide
  · rfl
  · decide

/-- On a group packet whose row groups are at most 59, at a column `posX` from 0 to
319, every event is inside the 320 x 480 grid, before and after the conversion to
`unsigned short`. -/
theorem group_packet_in_range (s : DecoderState) (b0 b1 b2 b3 : Byte)
    (hg : b0.val &&& 0x80 ≠ 0)
    (hrow : ((b1.val &&& 0xFC) >>> 2) + ((b0.val &&& 0x7C) >>> 2) ≤ 59)
    (hx : 0 ≤ s.posX ∧ s.posX ≤ 319) :
    ∃ evs, decode_packet s b0 b1 b2 b3 = some (s, evs) ∧
      ∀ ev ∈ evs,
        0 ≤ ev.x ∧ ev.x ≤ 319 ∧ 0 ≤ ev.y ∧ ev.y ≤ 479 ∧
        (u16 ev.x : Int) = ev.x ∧ (u16 ev.y : Int) = ev.y := by
  refine ⟨_, decode_packet_group s b0 b1 b2 b3 hg, ?_⟩
  intro ev hev
  simp only [List.mem_append, List.mem_map, List.mem_filter, List.mem_range] at hev
  rcases hev with ⟨n, ⟨hn, _⟩, rfl⟩ | ⟨n, ⟨hn, _⟩, rfl⟩
  · simp only [u16]
    omega
  · simp only [u16]
    omega

theorem add_all_keeps_other_cells (evs : List (Nat × Nat)) :
    ∀ (img : DVSImage) (d : Int), (∀ p ∈ evs, p.1 < 320 ∧ p.2 < 480) →
      ∃ img1, add_all img d evs = some img1 ∧
        ∀ i j, (i, j) ∉ evs → img1 i j = img i j := by
  induction evs with
  | nil =>
    intro img d _
    exact ⟨img, rfl, fun _ _ _ => rfl⟩
  | cons p rest ih =>
    intro img d h
    obtain ⟨x, y⟩ := p
    have hp := h (x, y) (List.mem_cons_self _ _)
    have hr : ∀ q ∈ rest, q.1 < 320 ∧ q.2 < 480 := fun q hq => h q (List.mem_cons_of_mem _ hq)
    obtain ⟨img1, h1, h2⟩ := ih
      (fun i j => if i = x ∧ j = y then u8 ((img i j : Int) + d) else img i j) d hr
    refine ⟨img1, ?_, ?_⟩
    · simp only [add_all, add_at_in_range img d x y hp.1 hp.2, h1]
    · intro i j hij
      have hne : ¬ (i = x ∧ j = y) := by
        intro hxy
        exact hij (by rw [hxy.1, hxy.2]; exact List.mem_cons_self _ _)
      have hnr : (i, j) ∉ rest := fun hm => hij (List.mem_cons_of_mem _ hm)
      rw [h2 i j hnr, if_neg hne]

/-- Claim C22. For a frame whose on and off coordinates are all inside the image
(`x < 320`, `y < 480`), `DVSEigenToGrayScale::receive` returns, and every cell that is
neither an on event nor an off event of the frame keeps its value. -/
theorem receive_keeps_unlisted_cells (g : DVSEigenToGrayScale) (m : DVSEigenData)
    (hon : ∀ p ∈ m.on_events, p.1 < 320 ∧ p.2 < 480)
    (hoff : ∀ p ∈ m.off_events, p.1 < 320 ∧ p.2 < 480) :
    ∃ g1, g.receive m = some g1 ∧
      ∀ i j, (i, j) ∉ m.on_events → (i, j) ∉ m.off_events →
        g1.accumulated_image i j = g.accumulated_image i j := by
  obtain ⟨img1, h1, k1⟩ := add_all_keeps_other_cells m.on_events g.accumulated_image 40 hon
  obtain ⟨img2, h2, k2⟩ := add_all_keeps_other_cells m.off_events img1 (-40) hoff
  refine ⟨{ accumulated_image := img2 }, ?_, ?_⟩
  · simp only [DVSEigenToGrayScale.receive, h1, h2]
  · intro i j hi hj
    show img2 i j = g.accumulated_image i j
    rw [k2 i j hj, k1 i j hi]

/-- A frame with an on event at (5, 7) and an off event at (6, 8) on a fresh image: the
cell (0, 0) keeps 128. -/
theorem receive_keeps_unlisted_cells_witness :
    (∀ p ∈ ([(5, 7)] : List (Nat × Nat)), p.1 < 320 ∧ p.2 < 480) ∧
    (∀ p ∈ ([(6, 8)] : List (Nat × Nat)), p.1 < 320 ∧ p.2 < 480) ∧
    ∃ g1, DVSEigenToGrayScale.new.receive
        { on_events := [(5, 7)], off_events := [(6, 8)], t := 5003 } = some g1 ∧
      g1.accumulated_image 0 0 = 128 := by
  obtain ⟨g1, h1, h2⟩ := receive_keeps_unlisted_cells DVSEigenToGrayScale.new
    { on_events := [(5, 7)], off_events := [(6, 8)], t := 5003 } (by decide) (by decide)
  exact ⟨by decide, by decide, g1, h1, (h2 0 0 (by decide) (by decide)).trans rfl⟩

/-! ## The script parser -/

theorem hexdigit_of_hex (c : Nat) (h : is_hex_char c) : hexdigit c = some (hex_char_value c) := by
  unfold hexdigit hex_char_value
  unfold is_hex_char at h
  split_ifs <;> first | rfl | (simp only [Option.some.injEq]; omega) | omega

theorem hexdigit_none_of_not_hex (c : Nat) (h : ¬ is_hex_char c) : hexdigit c = none := by
  unfold hexdigit
  unfold is_hex_char at h
  have h1 : ¬ (48 ≤ c ∧ c ≤ 57) := fun x => h (Or.inl x)
  have h2 : ¬ (97 ≤ c ∧ c ≤ 102) := fun x => h (Or.inr (Or.inl x))
  have h3 : ¬ (65 ≤ c ∧ c ≤ 70) := fun x => h (Or.inr (Or.inr x))
  simp only [h1, h2, h3, if_false]

theorem hex_char_value_lt (c : Nat) (h : is_hex_char c) : hex_char_value c < 16 := by
  unfold hex_char_value
  rcases h with h | h | h <;> split <;> try split
  all_goals omega

theorem hex_value_cons (d : Nat) (tok : List Nat) :
    hex_value (d :: tok) = 16 ^ tok.length * hex_char_value d + hex_value tok := by
  unfold hex_value
  rw [List.reverse_cons, List.map_append, Nat.ofDigits_append]
  simp [Nat.add_comm]

theorem hex_value_lt (tok : List Nat) (h : ∀ d ∈ tok, is_hex_char d) :
    hex_value tok < 16 ^ tok.length := by
  unfold hex_value
  have := Nat.ofDigits_lt_base_pow_length (b := 16) (l := tok.reverse.map hex_char_value)
    (by omega) (by
      intro x hx
      simp only [List.mem_map, List.mem_reverse] at hx
      obtain ⟨d, hd, rfl⟩ := hx
      exact hex_char_value_lt d (h d hd))
  simpa using this

theorem htoi_loop_token (tok : List Nat) :
    ∀ (n c : Nat) (rest : List Nat), (∀ d ∈ tok, is_hex_char d) → ¬ is_hex_char c →
      16 ^ tok.length * n + hex_value tok ≤ INT_MAX →
      htoi_loop n (tok ++ c :: rest) = some (16 ^ tok.length * n + hex_value tok, c :: rest) := by
  induction tok with
  | nil =>
    intro n c rest _ hc _
    simp [htoi_loop, hexdigit_none_of_not_hex c hc, hex_value]
  | cons d tok ih =>
    intro n c rest hd hc hb
    have hd0 : is_hex_char d := hd d (List.mem_cons_self _ _)
    have hd1 : ∀ x ∈ tok, is_hex_char x := fun x hx => hd x (List.mem_cons_of_mem _ hx)
    rw [hex_value_cons] at hb ⊢
    simp only [List.length_cons] at hb ⊢
    have e : 16 ^ (tok.length + 1) * n + (16 ^ tok.length * hex_char_value d + hex_value tok)
        = 16 ^ tok.length * (16 * n + hex_char_value d) + hex_value tok := by
      rw [pow_succ]; ring
    rw [e] at hb ⊢
    have hpos : 1 ≤ 16 ^ tok.length := Nat.one_le_two_pow.trans (Nat.pow_le_pow_left (by omega) _)
    have hle : 16 * n + hex_char_value d ≤ INT_MAX := by
      calc 16 * n + hex_char_value d ≤ 16 ^ tok.length * (16 * n + hex_char_value d) :=
            Nat.le_mul_of_pos_left _ hpos
        _ ≤ _ := Nat.le_of_add_right_le hb
    simp only [List.cons_append, htoi_loop, hexdigit_of_hex d hd0, hle, if_true]
    exact ih (16 * n + hex_char_value d) c rest hd1 hc hb

/-- A token of 1 to 7 hexadecimal digits followed by another character: `htoi` returns
its base-16 value and stops at that character. -/
theorem htoi_token (tok : List Nat) (c : Nat) (rest : List Nat)
    (hd : ∀ d ∈ tok, is_hex_char d) (hlen : tok.length ≤ 7) (hc : ¬ is_hex_char c) :
    htoi (tok ++ c :: rest) = some (hex_value tok, c :: rest) := by
  have hlt := hex_value_lt tok hd
  have hp : 16 ^ tok.length ≤ 16 ^ 7 := Nat.pow_le_pow_right (by omega) hlen
  have h := htoi_loop_token tok 0 c rest hd hc (by simp only [INT_MAX]; omega)
  simpa [htoi] using h

theorem parse_loop_separator (fuel c : Nat) (rest : List Nat) (mode : Int) (dst : Dst)
    (cells : ParseCells) (hc : is_separator c) :
    parse_loop (fuel + 1) (c :: rest) mode dst cells = parse_loop fuel rest mode dst cells := by
  unfold is_separator at hc
  have ht : tolower c = c := by
    unfold tolower
    rw [if_neg (by omega)]
  have h1 : ¬ (c = 0 ∨ c = 10 ∨ c = 47) := by omega
  simp only [parse_loop, ht, h1, hc, if_false, if_true]

theorem parse_loop_separators (seps : List Nat) :
    ∀ (fuel : Nat) (rest : List Nat) (mode : Int) (dst : Dst) (cells : ParseCells),
      (∀ c ∈ seps, is_separator c) →
      parse_loop (fuel + seps.length) (seps ++ rest) mode dst cells
        = parse_loop fuel rest mode dst cells := by
  induction seps with
  | nil =>
    intro fuel rest mode dst cells _
    rfl
  | cons c seps ih =>
    intro fuel rest mode dst cells h
    have hc : is_separator c := h c (List.mem_cons_self _ _)
    have hs : ∀ x ∈ seps, is_separator x := fun x hx => h x (List.mem_cons_of_mem _ hx)
    rw [List.length_cons, ← Nat.add_assoc, List.cons_append,
      parse_loop_separator _ c _ mode dst cells hc]
    exact ih fuel rest mode dst cells hs

theorem parse_loop_end (fuel : Nat) (rest : List Nat) (mode : Int) (dst : Dst)
    (cells : ParseCells) :
    parse_loop (fuel + 1) (0 :: rest) mode dst cells = some (mode, cells) := by
  simp [parse_loop, tolower]

theorem parse_loop_token (fuel : Nat) (tok : List Nat) (c : Nat) (rest : List Nat) (mode : Int)
    (dst : Dst) (cells : ParseCells) (hne : tok ≠ []) (hd : ∀ d ∈ tok, is_hex_char d)
    (hlen : tok.length ≤ 7) (hc : ¬ is_hex_char c) :
    parse_loop (fuel + 1) (tok ++ c :: rest) mode dst cells
      = parse_loop fuel rest (next_mode mode dst).1 (next_mode mode dst).2
          (cells.write dst (hex_value tok)) := by
  have hv := htoi_token tok c rest hd hlen hc
  cases tok with
  | nil => exact absurd rfl hne
  | cons d tok1 =>
    have hd0 : is_hex_char d := hd d (List.mem_cons_self _ _)
    unfold is_hex_char at hd0
    have h1 : ¬ (tolower d = 0 ∨ tolower d = 10 ∨ tolower d = 47) := by
      unfold tolower; split <;> omega
    have h2 : ¬ (tolower d = 32 ∨ tolower d = 9 ∨ tolower d = 58 ∨ tolower d = 61) := by
      unfold tolower; split <;> omega
    have h3 : ¬ tolower d = 119 := by
      unfold tolower; split <;> omega
    have h4 : (48 ≤ tolower d ∧ tolower d ≤ 57) ∨ (97 ≤ tolower d ∧ tolower d ≤ 102) := by
      unfold tolower; split <;> omega
    rw [List.cons_append] at hv ⊢
    simp only [parse_loop, h1, h2, h3, h4, if_false, if_true, hv, List.drop_succ_cons,
      List.drop_zero]

theorem parse_loop_wait (fuel c0 c1 c2 c3 : Nat) (rest : List Nat) (mode : Int) (dst : Dst)
    (cells : ParseCells) (h0 : c0 = 119 ∨ c0 = 87) (h1 : c1 = 97 ∨ c1 = 65)
    (h2 : c2 = 105 ∨ c2 = 73) (h3 : c3 = 116 ∨ c3 = 84) :
    parse_loop (fuel + 1) (c0 :: c1 :: c2 :: c3 :: rest) mode dst cells
      = parse_loop fuel rest 20 Dst.val cells := by
  have t0 : tolower c0 = 119 := by unfold tolower; split <;> omega
  have t1 : tolower c1 = 97 := by unfold tolower; split <;> omega
  have t2 : tolower c2 = 105 := by unfold tolower; split <;> omega
  have t3 : tolower c3 = 116 := by unfold tolower; split <;> omega
  simp [parse_loop, t0, t1, t2, t3]

/-- Claim C23. For a line made of three tokens of 1 to 7 hexadecimal digits (either
letter case), separated by one or more of space, tab, `:` and `=`, and ended by a
newline and the terminating 0, `parseString` returns 1 with the base-16 values of the
three tokens in `*slvAddr`, `*adr` and `*val`, whatever the cells held before and
whatever follows the terminator in the buffer. -/
theorem three_token_line (t1 t2 t3 seps1 seps2 garbage : List Nat) (cells : ParseCells)
    (h1 : t1 ≠ [] ∧ t1.length ≤ 7 ∧ ∀ d ∈ t1, is_hex_char d)
    (h2 : t2 ≠ [] ∧ t2.length ≤ 7 ∧ ∀ d ∈ t2, is_hex_char d)
    (h3 : t3 ≠ [] ∧ t3.length ≤ 7 ∧ ∀ d ∈ t3, is_hex_char d)
    (hs1 : seps1 ≠ [] ∧ ∀ c ∈ seps1, is_separator c)
    (hs2 : seps2 ≠ [] ∧ ∀ c ∈ seps2, is_separator c) :
    parseString (t1 ++ seps1 ++ t2 ++ seps2 ++ t3 ++ [10, 0] ++ garbage) cells
      = some (1, { slvAddr := (hex_value t1 : Nat), adr := (hex_value t2 : Nat),
                   val := (hex_value t3 : Nat) }) := by
  obtain ⟨hn1, hl1, hd1⟩ := h1
  obtain ⟨hn2, hl2, hd2⟩ := h2
  obtain ⟨hn3, hl3, hd3⟩ := h3
  obtain ⟨hsn1, hsep1⟩ := hs1
  obtain ⟨hsn2, hsep2⟩ := hs2
  cases seps1 with
  | nil => exact absurd rfl hsn1
  | cons s1 r1 =>
    cases seps2 with
    | nil => exact absurd rfl hsn2
    | cons s2 r2 =>
      have hs1 : is_separator s1 := hsep1 s1 (List.mem_cons_self _ _)
      have hr1 : ∀ c ∈ r1, is_separator c := fun c hc => hsep1 c (List.mem_cons_of_mem _ hc)
      have hs2 : is_separator s2 := hsep2 s2 (List.mem_cons_self _ _)
      have hr2 : ∀ c ∈ r2, is_separator c := fun c hc => hsep2 c (List.mem_cons_of_mem _ hc)
      have hx1 : ¬ is_hex_char s1 := by unfold is_separator at hs1; unfold is_hex_char; omega
      have hx2 : ¬ is_hex_char s2 := by unfold is_separator at hs2; unfold is_hex_char; omega
      have hx3 : ¬ is_hex_char 10 := by decide
      have hshape : t1 ++ s1 :: r1 ++ t2 ++ s2 :: r2 ++ t3 ++ [10, 0] ++ garbage
          = t1 ++ s1 :: (r1 ++ (t2 ++ s2 :: (r2 ++ (t3 ++ 10 :: (0 :: garbage))))) := by
        simp
      have hfuel : ∃ k, (t1 ++ s1 :: r1 ++ t2 ++ s2 :: r2 ++ t3 ++ [10, 0] ++ garbage).length + 1
          = k + 1 + 1 + r2.length + 1 + r1.length + 1 := by
        have := List.length_pos.mpr hn1
        exact ⟨t1.length + t2.length + t3.length + garbage.length + 1, by simp; omega⟩
      obtain ⟨k, hk⟩ := hfuel
      unfold parseString
      rw [hk, hshape,
        parse_loop_token _ t1 s1 _ _ _ _ hn1 hd1 hl1 hx1,
        parse_loop_separators r1 _ _ _ _ _ hr1,
        parse_loop_token _ t2 s2 _ _ _ _ hn2 hd2 hl2 hx2,
        parse_loop_separators r2 _ _ _ _ _ hr2,
        parse_loop_token _ t3 10 _ _ _ _ hn3 hd3 hl3 hx3,
        parse_loop_end]
      rfl

/-- The line `60 1A 2b` with its newline. -/
theorem three_token_line_witness :
    (([54, 48] : List Nat) ≠ [] ∧ ([54, 48] : List Nat).length ≤ 7 ∧
      ∀ d ∈ ([54, 48] : List Nat), is_hex_char d) ∧
    (([49, 65] : List Nat) ≠ [] ∧ ([49, 65] : List Nat).length ≤ 7 ∧
      ∀ d ∈ ([49, 65] : List Nat), is_hex_char d) ∧
    (([50, 98] : List Nat) ≠ [] ∧ ([50, 98] : List Nat).length ≤ 7 ∧
      ∀ d ∈ ([50, 98] : List Nat), is_hex_char d) ∧
    (([32] : List Nat) ≠ [] ∧ ∀ c ∈ ([32] : List Nat), is_separator c) ∧
    (([58, 9] : List Nat) ≠ [] ∧ ∀ c ∈ ([58, 9] : List Nat), is_separator c) ∧
    parseString [54, 48, 32, 49, 65, 58, 9, 50, 98, 10, 0, 77]
        { slvAddr := -1, adr := -2, val := -3 }
      = some (1, { slvAddr := 96, adr := 26, val := 43 }) :=
  ⟨by decide, by decide, by decide, by decide, by decide,
   (three_token_line [54, 48] [49, 65] [50, 98] [32] [58, 9] [77]
      { slvAddr := -1, adr := -2, val := -3 } (by decide) (by decide) (by decide) (by decide)
      (by decide)).trans (by decide)⟩

/-- Claim C24. For a line made of `wait` in any letter case, one or more separators,
a token of 1 to 7 hexadecimal digits, a newline and the terminating 0, `parseString`
returns 2 with the base-16 value of the token in `*val`, and `*slvAddr` and `*adr` as
they were. -/
theorem wait_line (c0 c1 c2 c3 : Nat) (seps tok garbage : List Nat) (cells : ParseCells)
    (h0 : c0 = 119 ∨ c0 = 87) (h1 : c1 = 97 ∨ c1 = 65) (h2 : c2 = 105 ∨ c2 = 73)
    (h3 : c3 = 116 ∨ c3 = 84)
    (hs : seps ≠ [] ∧ ∀ c ∈ seps, is_separator c)
    (ht : tok ≠ [] ∧ tok.length ≤ 7 ∧ ∀ d ∈ tok, is_hex_char d) :
    parseString ([c0, c1, c2, c3] ++ seps ++ tok ++ [10, 0] ++ garbage) cells
      = some (2, { slvAddr := cells.slvAddr, adr := cells.adr, val := (hex_value tok : Nat) }) := by
  obtain ⟨_, hsep⟩ := hs
  obtain ⟨hn, hl, hd⟩ := ht
  have hx : ¬ is_hex_char 10 := by decide
  have hshape : [c0, c1, c2, c3] ++ seps ++ tok ++ [10, 0] ++ garbage
      = c0 :: c1 :: c2 :: c3 :: (seps ++ (tok ++ 10 :: (0 :: garbage))) := by
    simp
  have hfuel : ∃ k, ([c0, c1, c2, c3] ++ seps ++ tok ++ [10, 0] ++ garbage).length + 1
      = k + 1 + 1 + seps.length + 1 := by
    exact ⟨tok.length + garbage.length + 4, by simp; omega⟩
  obtain ⟨k, hk⟩ := hfuel
  unfold parseString
  rw [hk, hshape, parse_loop_wait _ c0 c1 c2 c3 _ _ _ _ h0 h1 h2 h3,
    parse_loop_separators seps _ _ _ _ _ hsep,
    parse_loop_token _ tok 10 _ _ _ _ hn hd hl hx,
    parse_loop_end]
  rfl

/-- The line `wait 100` with its newline: 256. -/
theorem wait_line_witness :
    ((119 : Nat) = 119 ∨ (119 : Nat) = 87) ∧ ((65 : Nat) = 97 ∨ (65 : Nat) = 65) ∧
    ((105 : Nat) = 105 ∨ (105 : Nat) = 73) ∧ ((84 : Nat) = 116 ∨ (84 : Nat) = 84) ∧
    (([32] : List Nat) ≠ [] ∧ ∀ c ∈ ([32] : List Nat), is_separator c) ∧
    (([49, 48, 48] : List Nat) ≠ [] ∧ ([49, 48, 48] : List Nat).length ≤ 7 ∧
      ∀ d ∈ ([49, 48, 48] : List Nat), is_hex_char d) ∧
    parseString [119, 65, 105, 84, 32, 49, 48, 48, 10, 0, 77]
        { slvAddr := -1, adr := -2, val := -3 }
      = some (2, { slvAddr := -1, adr := -2, val := 256 }) :=
  ⟨by decide, by decide, by decide, by decide, by decide, by decide,
   (wait_line 119 65 105 84 [32] [49, 48, 48] [77] { slvAddr := -1, adr := -2, val := -3 }
      (by decide) (by decide) (by decide) (by decide) (by decide) (by decide)).trans
      (by decide)⟩

end Dvs
